import Mathlib

/-!
# ae_exports.cpp — the JNI bridge of Mupen64PlusAE

A shallow embedding of `jni/ae-bridge/ae_exports.cpp`.

* Pointers (library handles, function pointers, `JNIEnv*`, object references) are
  addresses, `Nat`, with `0` for `NULL`, so that the source's `!p` is `p = 0`.
* The file's static variables are the record `Globals`.
* Everything outside the file (the dynamic linker, the JNI environment, the emulator
  core) is the record `World`: what each outside call answers.
* A native method is a function `Globals → Run α`: the calls it makes to the outside, in
  order (`trace`), the static variables afterwards, and its return value; the value is
  `none` when execution stopped at a call through a null function pointer.
* `swap_rom` and `trim` work on a byte buffer, a `List Nat`; an access outside the buffer
  makes the result `none`.
-/

namespace AeBridge

/-! ## Data model -/

/-- An address; `0` is `NULL`. -/
abbrev Ptr := Nat

/-- The commands of `m64p_types.h` that this file passes to `CoreDoCommand`. The header is
not part of the repository, so the enumerators are kept as names. -/
inductive m64p_command
  | M64CMD_STOP
  | M64CMD_PAUSE
  | M64CMD_RESUME
  | M64CMD_CORE_STATE_QUERY
  | M64CMD_STATE_LOAD
  | M64CMD_STATE_SAVE
  | M64CMD_STATE_SET_SLOT
  | M64CMD_CORE_STATE_SET
  | M64CMD_ADVANCE_FRAME
  deriving DecidableEq, Repr

/-- The core parameters of `m64p_types.h` that this file names. -/
inductive m64p_core_param
  | M64CORE_EMU_STATE
  | M64CORE_SPEED_FACTOR
  | M64CORE_INPUT_GAMESHARK
  deriving DecidableEq, Repr

/-- A reference to a Java `String` object (never the null reference). -/
structure jstring where
  id : Nat
  deriving DecidableEq, Repr

/-- The result of `GetStringUTFChars`: the address handed out and the bytes stored there
(the bytes before the terminating NUL are the string). -/
structure CharPtr where
  addr : Ptr
  bytes : List Nat
  deriving DecidableEq, Repr

/-- An argument of a call through a function pointer. -/
inductive Arg
  /-- a pointer or reference passed as is (`env`, `cls`, `mVm`, `NULL` is `ptr 0`) -/
  | ptr (p : Ptr)
  /-- an `int` / `jint` -/
  | int (v : Int)
  | cmd (c : m64p_command)
  | coreParam (p : m64p_core_param)
  /-- the address of a local `int` that holds `v` at the time of the call -/
  | intRef (v : Int)
  /-- the `const char*` obtained from `GetStringUTFChars` -/
  | chars (c : CharPtr)
  /-- a `char**`: its address and what its entries hold at the time of the call (`none`:
  an entry that was never assigned; an address `0`: a null entry) -/
  | argv (addr : Ptr) (entries : List (Option CharPtr))
  deriving DecidableEq, Repr

/-- A call that leaves the file. -/
inductive Event
  | LOGI (msg : String)
  | LOGE (msg : String)
  /-- the call `dlopen(path, RTLD_NOW)` -/
  | dlopen (path : String)
  | dlsym (handle : Ptr) (symbol : String)
  | dlclose (handle : Ptr)
  /-- a call through the function pointer `f`; `f = 0` is a call through `NULL` -/
  | call (f : Ptr) (args : List Arg)
  | GetArrayLength (array : Ptr)
  | GetObjectArrayElement (array : Ptr) (index : Int)
  | GetStringUTFChars (s : jstring)
  | ReleaseStringUTFChars (s : jstring) (c : CharPtr)
  /-- the call `malloc(sizeof(char *) * count)` -/
  | malloc (count : Int)
  | strdup (c : CharPtr)
  deriving DecidableEq, Repr

/-- The static variables of the file. -/
structure Globals where
  mVm : Ptr
  mReserved : Ptr
  handleAEI : Ptr
  handleSDL : Ptr
  handleCore : Ptr
  handleFront : Ptr
  aeiInit : Ptr
  sdlInit : Ptr
  sdlMainReady : Ptr
  sdlOnResize : Ptr
  coreDoCommand : Ptr
  frontMain : Ptr
  deriving DecidableEq, Repr

/-- A Java `String[]` object: its reference and its elements, each a `String` or `null`
(`none`). -/
structure jobjectArray where
  ref : Ptr
  elems : List (Option jstring)
  deriving DecidableEq, Repr

/-- What the outside answers: the dynamic linker, the JNI environment, the core. -/
structure World where
  /-- the handle `dlopen(path, RTLD_NOW)` returns (`0` on failure) -/
  dlopen : String → Ptr
  /-- the address `dlsym(handle, symbol)` returns (`0` on failure) -/
  dlsym : Ptr → String → Ptr
  /-- the characters `GetStringUTFChars(s, 0)` returns (address `0`: it returned `NULL`) -/
  GetStringUTFChars : jstring → CharPtr
  /-- the address `malloc(sizeof(char *) * count)` returns (`0` on failure) -/
  malloc : Int → Ptr
  /-- the address `strdup(arg)` returns for a non-null `arg` (`0` on failure) -/
  strdup : CharPtr → Ptr
  /-- what the core stores through the pointer on an `M64CORE_EMU_STATE` query;
  `none` when it stores nothing -/
  emuStateQuery : Option Int

/-- What a run of a native method did. -/
structure Run (α : Type) where
  trace : List Event
  globals : Globals
  /-- the value returned; `none`: execution stopped at a call through a null function
  pointer (or at another
  undefined step) -/
  result : Option α

/-- A piece of the file's code: from the static variables to a run. -/
def Exec (α : Type) : Type := Globals → Run α

/-- Finish with a value, calling nothing. -/
def Exec.ret {α : Type} (a : α) : Exec α := fun g => ⟨[], g, some a⟩

/-- Sequencing: the second part runs only if the first one came back. -/
def Exec.andThen {α β : Type} (m : Exec α) (f : α → Exec β) : Exec β := fun g =>
  match (m g).result with
  | none => ⟨(m g).trace, (m g).globals, none⟩
  | some a =>
    ⟨(m g).trace ++ (f a (m g).globals).trace, (f a (m g).globals).globals,
      (f a (m g).globals).result⟩

instance : Monad Exec where
  pure := Exec.ret
  bind := Exec.andThen

/-- One outside call whose answer is not used. -/
def emit (e : Event) : Exec Unit := fun g => ⟨[e], g, some ()⟩

/-- Read the static variables. -/
def getGlobals : Exec Globals := fun g => ⟨[], g, some g⟩

/-- Assign to static variables. -/
def modifyGlobals (f : Globals → Globals) : Exec Unit := fun g => ⟨[], f g, some ()⟩

/-- An undefined step: execution does not continue. -/
def undefinedStep {α : Type} : Exec α := fun g => ⟨[], g, none⟩

/-- A call through the function pointer `f`. The call is recorded; through `NULL`
execution does not continue. A callee that is there is taken to come back, and it cannot
name the static variables of this file. -/
def invoke (f : Ptr) (args : List Arg) : Exec Unit := fun g =>
  ⟨[Event.call f args], g, if f = 0 then none else some ()⟩

/-- The call `dlopen(path, RTLD_NOW)`. -/
def dlopen (w : World) (path : String) : Exec Ptr := fun g =>
  ⟨[Event.dlopen path], g, some (w.dlopen path)⟩

/-- The call `dlsym(handle, symbol)`. -/
def dlsym (w : World) (handle : Ptr) (symbol : String) : Exec Ptr := fun g =>
  ⟨[Event.dlsym handle symbol], g, some (w.dlsym handle symbol)⟩

/-- The call `env->GetStringUTFChars(s, 0)`. -/
def GetStringUTFChars (w : World) (s : jstring) : Exec CharPtr := fun g =>
  ⟨[Event.GetStringUTFChars s], g, some (w.GetStringUTFChars s)⟩

/-- The string a buffer holds: its bytes before the first NUL. -/
def cstr (buf : List Nat) : List Nat := buf.takeWhile (fun c => c != 0)

/-- What `strdup(arg)` returns for a non-null `arg`: `NULL` when the allocation fails, else
the address of a new buffer that holds a copy of the string at `arg`. -/
def strdupResult (w : World) (c : CharPtr) : CharPtr :=
  if w.strdup c = 0 then ⟨0, []⟩ else ⟨w.strdup c, cstr c.bytes⟩

/-- The call `strdup(arg)`; with `arg` null it is undefined. -/
def strdup (w : World) (c : CharPtr) : Exec CharPtr := fun g =>
  ⟨[Event.strdup c], g, if c.addr = 0 then none else some (strdupResult w c)⟩

/-- The call `malloc(sizeof(char *) * count)`. -/
def malloc (w : World) (count : Int) : Exec Ptr := fun g =>
  ⟨[Event.malloc count], g, some (w.malloc count)⟩

/-- The cast `(int) x` of a `jint`: the value as a 32-bit two's complement integer. -/
def toInt32 (x : Int) : Int := (x + 2147483648) % 4294967296 - 2147483648

/-! ## Functions called internally -/

/-- The read `buf[i]`; `none` outside the buffer. -/
def readByte (buf : List Nat) (i : Nat) : Option Nat := buf[i]?

/-- The write `buf[i] = v`; `none` outside the buffer. -/
def writeByte (buf : List Nat) (i : Nat) (v : Nat) : Option (List Nat) :=
  if i < buf.length then some (buf.set i v) else none

/-- The largest `int` (32 bits). -/
def INT_MAX : Int := 2147483647

/-- The byteswap loop of `swap_rom`, `for (i = ...; i < loadlength; i += 2)`, from `i` on.
The first argument bounds the number of iterations; `swap_rom` passes `loadlength`, which
is enough. An `i += 2` that leaves the range of `int` is undefined. -/
def swap_rom_byteswap (loadlength : Int) : Nat → Nat → List Nat → Option (List Nat)
  | 0, i, localrom => if (i : Int) < loadlength then none else some localrom
  | fuel + 1, i, localrom =>
    if (i : Int) < loadlength then do
      let temp ← readByte localrom i
      let b ← readByte localrom (i + 1)
      let localrom ← writeByte localrom i b
      let localrom ← writeByte localrom (i + 1) temp
      if (i : Int) + 2 > INT_MAX then none
      else swap_rom_byteswap loadlength fuel (i + 2) localrom
    else some localrom

/-- The wordswap loop of `swap_rom`, `for (i = ...; i < loadlength; i += 4)`, from `i` on. -/
def swap_rom_wordswap (loadlength : Int) : Nat → Nat → List Nat → Option (List Nat)
  | 0, i, localrom => if (i : Int) < loadlength then none else some localrom
  | fuel + 1, i, localrom =>
    if (i : Int) < loadlength then do
      let temp ← readByte localrom i
      let b ← readByte localrom (i + 3)
      let localrom ← writeByte localrom i b
      let localrom ← writeByte localrom (i + 3) temp
      let temp ← readByte localrom (i + 1)
      let b ← readByte localrom (i + 2)
      let localrom ← writeByte localrom (i + 1) b
      let localrom ← writeByte localrom (i + 2) temp
      if (i : Int) + 4 > INT_MAX then none
      else swap_rom_wordswap loadlength fuel (i + 4) localrom
    else some localrom

/-- The function `swap_rom(localrom, loadlength)`: the buffer afterwards, `none` when an
access falls outside the buffer. -/
def swap_rom (localrom : List Nat) (loadlength : Int) : Option (List Nat) := do
  let first ← readByte localrom 0
  /- Byteswap if .v64 image. -/
  if first = 0x37 then
    swap_rom_byteswap loadlength loadlength.toNat 0 localrom
  else
    let first ← readByte localrom 0
    /- Wordswap if .n64 image. -/
    if first = 0x40 then
      swap_rom_wordswap loadlength loadlength.toNat 0 localrom
    else
      some localrom

/-- The test `isspace(c)` in the C locale, on the character as an unsigned byte: space and
the control characters 9 to 13 (tab, line feed, vertical tab, form feed, carriage return). -/
def isspace (c : Nat) : Bool := c == 0x20 || (0x09 ≤ c && c ≤ 0x0d)

/-- The length `strlen` gives for the memory that starts with the given bytes: `none` when
there is no NUL before its end. -/
def strlen : List Nat → Option Nat
  | [] => none
  | c :: cs => if c = 0 then some 0 else (strlen cs).map (fun n => n + 1)

/-- The loop `while (isspace(*p)) p++;` of `trim`: the memory from `p` on and the offset
`p`; the offset at which it stops, `none` when it runs past the end of the buffer. -/
def trim_skip : List Nat → Nat → Option Nat
  | [], _ => none
  | c :: cs, p => if isspace c then trim_skip cs (p + 1) else some p

/-- The loop `for (i = ...; i <= strlen(p); ++i) str[i] = p[i];` of `trim`, from `i` on,
with `p` the offset of the first non-space character. `strlen(p)` is evaluated anew in
each round, and `i` is an `unsigned int`. The first argument bounds the number of rounds;
`trim` passes the length of the buffer plus one, which is enough. -/
def trim_copy (p : Nat) : Nat → Nat → List Nat → Option (List Nat)
  | 0, _, _ => none
  | fuel + 1, i, str => do
    let n ← strlen (str.drop p)
    if i ≤ n then
      let c ← readByte str (p + i)
      let str ← writeByte str i c
      trim_copy p fuel ((i + 1) % 4294967296) str
    else
      some str

/-- The loop `while (isspace(*p)) p--;` of `trim`, from offset `p` down: the offset at
which it stops, `none` when it steps below the start of the buffer. -/
def trim_back (str : List Nat) : Nat → Option Nat
  | 0 => do
    let c ← readByte str 0
    if isspace c then none else some 0
  | p + 1 => do
    let c ← readByte str (p + 1)
    if isspace c then trim_back str p else some (p + 1)

/-- The function `trim(str)`, on the buffer that starts at `str`: the offset of the
returned pointer from `str`, and the buffer afterwards; `none` when an access falls outside
the buffer. -/
def trim (str : List Nat) : Option (Nat × List Nat) := do
  let p ← trim_skip str 0
  let str ← (if p ≠ 0 then trim_copy p (str.length + 1) 0 str else some str)
  let n ← strlen str
  let p : Int := (n : Int) - 1
  if p > 0 then
    let q ← trim_back str p.toNat
    let str ← writeByte str (q + 1) 0
    some (0, str)
  else
    some (0, str)

/-! ## Functions called automatically by the JNI framework -/

/-- The constant `JNI_VERSION_1_4` of `jni.h`. -/
def JNI_VERSION_1_4 : Int := 0x00010004

/-- The function `JNI_OnLoad`. -/
def JNI_OnLoad (vm reserved : Ptr) : Exec Int := do
  modifyGlobals fun g => { g with mVm := vm }
  modifyGlobals fun g => { g with mReserved := reserved }
  return JNI_VERSION_1_4

/-! ## Functions called by Java code -/

/-- The four library paths written into `loadLibraries`. -/
def pathAEI : String := "/data/data/paulscode.android.mupen64plusae/lib/libae-imports.so"
def pathSDL : String := "/data/data/paulscode.android.mupen64plusae/lib/libSDL2.so"
def pathCore : String := "/data/data/paulscode.android.mupen64plusae/lib/libcore.so"
def pathFront : String := "/data/data/paulscode.android.mupen64plusae/lib/libfront-end.so"

/-- The log lines of `loadLibraries` and `unloadLibraries`. -/
def msgLoading : String := "Loading native libraries"
def msgNoLibraries : String := "Could not load libraries: be sure the paths are correct"
def msgNoFunctions : String :=
  "Could not load library functions: be sure they are named and typedef\x27d correctly"
def msgUnloading : String := "Unloading native libraries"

/-- The native method `Java_paulscode_android_mupen64plusae_CoreInterfaceNative_loadLibraries`. -/
def loadLibraries (w : World) (_env _cls : Ptr) : Exec Unit := do
  emit (Event.LOGI msgLoading)
  -- Open shared libraries
  let h ← dlopen w pathAEI
  modifyGlobals fun g => { g with handleAEI := h }
  let h ← dlopen w pathSDL
  modifyGlobals fun g => { g with handleSDL := h }
  let h ← dlopen w pathCore
  modifyGlobals fun g => { g with handleCore := h }
  let h ← dlopen w pathFront
  modifyGlobals fun g => { g with handleFront := h }
  let g ← getGlobals
  if g.handleAEI = 0 ∨ g.handleSDL = 0 ∨ g.handleCore = 0 ∨ g.handleFront = 0 then
    emit (Event.LOGE msgNoLibraries)
  -- Find and call the JNI_OnLoad functions manually
  let JNI_OnLoad0 ← dlsym w g.handleAEI "JNI_OnLoad"
  let JNI_OnLoad1 ← dlsym w g.handleSDL "JNI_OnLoad"
  invoke JNI_OnLoad0 [Arg.ptr g.mVm, Arg.ptr g.mReserved]
  invoke JNI_OnLoad1 [Arg.ptr g.mVm, Arg.ptr g.mReserved]
  -- Find library functions
  let f ← dlsym w g.handleAEI "SDL_Android_Init_Extras"
  modifyGlobals fun g => { g with aeiInit := f }
  let f ← dlsym w g.handleSDL "SDL_Android_Init"
  modifyGlobals fun g => { g with sdlInit := f }
  let f ← dlsym w g.handleSDL "SDL_SetMainReady"
  modifyGlobals fun g => { g with sdlMainReady := f }
  let f ← dlsym w g.handleSDL "Java_org_libsdl_app_SDLActivity_onNativeResize"
  modifyGlobals fun g => { g with sdlOnResize := f }
  let f ← dlsym w g.handleCore "CoreDoCommand"
  modifyGlobals fun g => { g with coreDoCommand := f }
  let f ← dlsym w g.handleFront "SDL_main"
  modifyGlobals fun g => { g with frontMain := f }
  let g ← getGlobals
  if g.aeiInit = 0 ∨ g.sdlInit = 0 ∨ g.sdlMainReady = 0 ∨ g.sdlOnResize = 0
      ∨ g.coreDoCommand = 0 ∨ g.frontMain = 0 then
    emit (Event.LOGE msgNoFunctions)

/-- The native method `Java_paulscode_android_mupen64plusae_CoreInterfaceNative_unloadLibraries`. -/
def unloadLibraries (_env _cls : Ptr) : Exec Unit := do
  emit (Event.LOGI msgUnloading)
  -- Nullify function pointers
  modifyGlobals fun g => { g with aeiInit := 0 }
  modifyGlobals fun g => { g with sdlInit := 0 }
  modifyGlobals fun g => { g with sdlMainReady := 0 }
  modifyGlobals fun g => { g with sdlOnResize := 0 }
  modifyGlobals fun g => { g with coreDoCommand := 0 }
  modifyGlobals fun g => { g with frontMain := 0 }
  -- Close shared libraries
  let g ← getGlobals
  if g.handleFront ≠ 0 then emit (Event.dlclose g.handleFront)
  if g.handleCore ≠ 0 then emit (Event.dlclose g.handleCore)
  if g.handleSDL ≠ 0 then emit (Event.dlclose g.handleSDL)
  if g.handleAEI ≠ 0 then emit (Event.dlclose g.handleAEI)
  -- Nullify handles
  modifyGlobals fun g => { g with handleFront := 0 }
  modifyGlobals fun g => { g with handleCore := 0 }
  modifyGlobals fun g => { g with handleSDL := 0 }
  modifyGlobals fun g => { g with handleAEI := 0 }

/-- The loop of `sdlInit` that repackages the command-line arguments, from index `i` on;
`argv` is the address `malloc` returned and the list holds the entries of the array there.
Nothing is checked, as in the source: `GetStringUTFChars` on a null element is undefined,
so is `strdup` of a `NULL` from `GetStringUTFChars`, and so is the store `argv[i] = ...`
through a `NULL` from `malloc`; a `NULL` from `strdup` is stored as it is.
The first numeric argument bounds the number of iterations; `sdlInit` passes `argc`, which
is enough. -/
def sdlInit_loop (w : World) (jargv : jobjectArray) (argc : Int) (argv : Ptr) :
    Nat → Nat → List (Option CharPtr) → Exec (List (Option CharPtr))
  | 0, i, entries => if (i : Int) < argc then undefinedStep else pure entries
  | fuel + 1, i, entries =>
    if (i : Int) < argc then do
      emit (Event.GetObjectArrayElement jargv.ref i)
      match jargv.elems[i]? with
      | none => undefinedStep
      | some none => undefinedStep
      | some (some jarg) => do
        let arg ← GetStringUTFChars w jarg
        let copy ← strdup w arg
        if argv = 0 then undefinedStep
        else do
          emit (Event.ReleaseStringUTFChars jarg arg)
          sdlInit_loop w jargv argc argv fuel (i + 1) (entries.set i (some copy))
    else pure entries

/-- The native method `Java_paulscode_android_mupen64plusae_CoreInterfaceNative_sdlInit`.
The product `sizeof(char *) * argc` is taken not to wrap: an array long enough for that
does not fit the address space. -/
def sdlInit (w : World) (env cls : Ptr) (jargv : jobjectArray) : Exec Unit := do
  -- Initialize dependencies
  let g ← getGlobals
  invoke g.aeiInit [Arg.ptr env, Arg.ptr cls]
  invoke g.sdlInit [Arg.ptr env, Arg.ptr cls]
  invoke g.sdlMainReady []
  -- Repackage the command-line args
  emit (Event.GetArrayLength jargv.ref)
  let argc : Int := jargv.elems.length
  let argv ← malloc w argc
  let entries ← sdlInit_loop w jargv argc argv argc.toNat 0 (List.replicate argc.toNat none)
  -- Launch main emulator loop
  invoke g.frontMain [Arg.int argc, Arg.argv argv entries]

/-- The native method `Java_paulscode_android_mupen64plusae_CoreInterfaceNative_sdlOnResize`. -/
def sdlOnResize (env jcls : Ptr) (width height format : Int) : Exec Unit := do
  let g ← getGlobals
  invoke g.sdlOnResize [Arg.ptr env, Arg.ptr jcls, Arg.int width, Arg.int height, Arg.int format]

/-- The constant `JNI_TRUE` of `jni.h`. -/
def JNI_TRUE : Nat := 1

/-- The native method `Java_paulscode_android_mupen64plusae_CoreInterfaceNative_emuGameShark`; `pressed` is
a `jboolean`, an unsigned byte. -/
def emuGameShark (_env _cls : Ptr) (pressed : Nat) : Exec Unit := do
  let p : Int := if pressed = JNI_TRUE then 1 else 0
  let g ← getGlobals
  invoke g.coreDoCommand [Arg.cmd .M64CMD_CORE_STATE_SET, Arg.coreParam .M64CORE_INPUT_GAMESHARK,
    Arg.intRef p]

/-- The native method `Java_paulscode_android_mupen64plusae_CoreInterfaceNative_emuPause`. -/
def emuPause (_env _cls : Ptr) : Exec Unit := do
  let g ← getGlobals
  invoke g.coreDoCommand [Arg.cmd .M64CMD_PAUSE, Arg.int 0, Arg.ptr 0]

/-- The native method `Java_paulscode_android_mupen64plusae_CoreInterfaceNative_emuResume`. -/
def emuResume (_env _cls : Ptr) : Exec Unit := do
  let g ← getGlobals
  invoke g.coreDoCommand [Arg.cmd .M64CMD_RESUME, Arg.int 0, Arg.ptr 0]

/-- The native method `Java_paulscode_android_mupen64plusae_CoreInterfaceNative_emuStop`. -/
def emuStop (_env _cls : Ptr) : Exec Unit := do
  let g ← getGlobals
  invoke g.coreDoCommand [Arg.cmd .M64CMD_STOP, Arg.int 0, Arg.ptr 0]

/-- The native method `Java_paulscode_android_mupen64plusae_CoreInterfaceNative_emuAdvanceFrame`. -/
def emuAdvanceFrame (_env _cls : Ptr) : Exec Unit := do
  let g ← getGlobals
  invoke g.coreDoCommand [Arg.cmd .M64CMD_ADVANCE_FRAME, Arg.int 0, Arg.ptr 0]

/-- The native method `Java_paulscode_android_mupen64plusae_CoreInterfaceNative_emuSetSpeed`. -/
def emuSetSpeed (_env _cls : Ptr) (percent : Int) : Exec Unit := do
  let speed_factor : Int := toInt32 percent
  let g ← getGlobals
  invoke g.coreDoCommand [Arg.cmd .M64CMD_CORE_STATE_SET, Arg.coreParam .M64CORE_SPEED_FACTOR,
    Arg.intRef speed_factor]

/-- The native method `Java_paulscode_android_mupen64plusae_CoreInterfaceNative_emuSetSlot`. -/
def emuSetSlot (_env _cls : Ptr) (slotID : Int) : Exec Unit := do
  let g ← getGlobals
  invoke g.coreDoCommand [Arg.cmd .M64CMD_STATE_SET_SLOT, Arg.int (toInt32 slotID), Arg.ptr 0]

/-- The native method `Java_paulscode_android_mupen64plusae_CoreInterfaceNative_emuLoadSlot`. -/
def emuLoadSlot (_env _cls : Ptr) : Exec Unit := do
  let g ← getGlobals
  invoke g.coreDoCommand [Arg.cmd .M64CMD_STATE_LOAD, Arg.int 0, Arg.ptr 0]

/-- The native method `Java_paulscode_android_mupen64plusae_CoreInterfaceNative_emuSaveSlot`. -/
def emuSaveSlot (_env _cls : Ptr) : Exec Unit := do
  let g ← getGlobals
  invoke g.coreDoCommand [Arg.cmd .M64CMD_STATE_SAVE, Arg.int 1, Arg.ptr 0]

/-- The native method `Java_paulscode_android_mupen64plusae_CoreInterfaceNative_emuLoadFile`. -/
def emuLoadFile (w : World) (_env _cls : Ptr) (filename : jstring) : Exec Unit := do
  let nativeString ← GetStringUTFChars w filename
  let g ← getGlobals
  invoke g.coreDoCommand [Arg.cmd .M64CMD_STATE_LOAD, Arg.int 0, Arg.chars nativeString]
  emit (Event.ReleaseStringUTFChars filename nativeString)

/-- The native method `Java_paulscode_android_mupen64plusae_CoreInterfaceNative_emuSaveFile`. -/
def emuSaveFile (w : World) (_env _cls : Ptr) (filename : jstring) : Exec Unit := do
  let nativeString ← GetStringUTFChars w filename
  let g ← getGlobals
  invoke g.coreDoCommand [Arg.cmd .M64CMD_STATE_SAVE, Arg.int 1, Arg.chars nativeString]
  emit (Event.ReleaseStringUTFChars filename nativeString)

/-- The enumerators of `m64p_emu_state` (`m64p_types.h`, not part of the repository):
their values are taken as given. -/
structure m64p_emu_state where
  M64EMU_STOPPED : Int
  M64EMU_RUNNING : Int
  M64EMU_PAUSED : Int

/-- The native method `Java_paulscode_android_mupen64plusae_CoreInterfaceNative_emuGetState`. -/
def emuGetState (k : m64p_emu_state) (w : World) (_env _cls : Ptr) : Exec Int := do
  let state : Int := 0
  let g ← getGlobals
  invoke g.coreDoCommand [Arg.cmd .M64CMD_CORE_STATE_QUERY, Arg.coreParam .M64CORE_EMU_STATE,
    Arg.intRef state]
  let state : Int := match w.emuStateQuery with
    | none => state
    | some v => v
  if state = k.M64EMU_STOPPED then
    return 1
  else if state = k.M64EMU_RUNNING then
    return 2
  else if state = k.M64EMU_PAUSED then
    return 3
  else
    return 0

/-- The static variables before anything was loaded. -/
def notLoaded (vm reserved : Ptr) : Globals :=
  ⟨vm, reserved, 0, 0, 0, 0, 0, 0, 0, 0, 0, 0⟩

/-- A world in which every library opens and every symbol resolves. -/
def worldAll : World :=
  { dlopen := fun _ => 7
    dlsym := fun _ _ => 9
    GetStringUTFChars := fun s => ⟨100 + s.id, [97, 0]⟩
    malloc := fun _ => 200
    strdup := fun c => 200 + c.addr
    emuStateQuery := some 2 }

/-- A world in which `libae-imports.so` cannot be opened, every other library opens, and
symbols resolve in every library that is open. -/
def worldNoAEI : World :=
  { dlopen := fun path => if path = pathAEI then 0 else 7
    dlsym := fun h _ => if h = 0 then 0 else 9
    GetStringUTFChars := fun s => ⟨100 + s.id, [97, 0]⟩
    malloc := fun _ => 200
    strdup := fun c => 200 + c.addr
    emuStateQuery := none }

/-- A world in which `libcore.so` cannot be opened, every other library opens, and symbols
resolve in every library that is open. -/
def worldNoCore : World :=
  { dlopen := fun path => if path = pathCore then 0 else 7
    dlsym := fun h _ => if h = 0 then 0 else 9
    GetStringUTFChars := fun s => ⟨100 + s.id, [97, 0]⟩
    malloc := fun _ => 200
    strdup := fun c => 200 + c.addr
    emuStateQuery := none }

/-- A world in which everything loads but `strdup` finds no memory. -/
def worldNoMemory : World :=
  { dlopen := fun _ => 7
    dlsym := fun _ _ => 9
    GetStringUTFChars := fun s => ⟨100 + s.id, [97, 0]⟩
    malloc := fun _ => 200
    strdup := fun _ => 0
    emuStateQuery := none }

/-- The element is a string for which `GetStringUTFChars` and `strdup` do not return
`NULL`. -/
def elementCopies (w : World) : Option jstring → Prop
  | none => False
  | some s => (w.GetStringUTFChars s).addr ≠ 0 ∧ w.strdup (w.GetStringUTFChars s) ≠ 0

instance (w : World) (e : Option jstring) : Decidable (elementCopies w e) := by
  cases e <;> unfold elementCopies <;> infer_instance

/-- The entry of `argv` that `sdlInit` makes for an element. -/
def argvEntry (w : World) (e : Option jstring) : Option CharPtr :=
  e.map (fun s => strdupResult w (w.GetStringUTFChars s))

/-- The static variables once the four libraries were opened. -/
def afterOpen (w : World) (g : Globals) : Globals :=
  { g with
    handleAEI := w.dlopen pathAEI
    handleSDL := w.dlopen pathSDL
    handleCore := w.dlopen pathCore
    handleFront := w.dlopen pathFront }

/-- The static variables once the six library functions were looked up. -/
def afterResolve (w : World) (g : Globals) : Globals :=
  { afterOpen w g with
    aeiInit := w.dlsym (w.dlopen pathAEI) "SDL_Android_Init_Extras"
    sdlInit := w.dlsym (w.dlopen pathSDL) "SDL_Android_Init"
    sdlMainReady := w.dlsym (w.dlopen pathSDL) "SDL_SetMainReady"
    sdlOnResize := w.dlsym (w.dlopen pathSDL) "Java_org_libsdl_app_SDLActivity_onNativeResize"
    coreDoCommand := w.dlsym (w.dlopen pathCore) "CoreDoCommand"
    frontMain := w.dlsym (w.dlopen pathFront) "SDL_main" }

/-- Some library handle is null. -/
def anyHandleNull (g : Globals) : Prop :=
  g.handleAEI = 0 ∨ g.handleSDL = 0 ∨ g.handleCore = 0 ∨ g.handleFront = 0

/-- Some function pointer is null. -/
def anyFunctionNull (g : Globals) : Prop :=
  g.aeiInit = 0 ∨ g.sdlInit = 0 ∨ g.sdlMainReady = 0 ∨ g.sdlOnResize = 0
    ∨ g.coreDoCommand = 0 ∨ g.frontMain = 0

instance (g : Globals) : Decidable (anyHandleNull g) := by
  unfold anyHandleNull; infer_instance

instance (g : Globals) : Decidable (anyFunctionNull g) := by
  unfold anyFunctionNull; infer_instance

/-- The calls of `loadLibraries` up to and including the two `dlsym` for `JNI_OnLoad`. -/
def loadTraceOpen (w : World) (g : Globals) : List Event :=
  [Event.LOGI msgLoading, Event.dlopen pathAEI, Event.dlopen pathSDL, Event.dlopen pathCore,
    Event.dlopen pathFront]
  ++ (if anyHandleNull (afterOpen w g) then [Event.LOGE msgNoLibraries] else [])
  ++ [Event.dlsym (w.dlopen pathAEI) "JNI_OnLoad", Event.dlsym (w.dlopen pathSDL) "JNI_OnLoad"]

/-- The calls of `loadLibraries` after the two `JNI_OnLoad` calls. -/
def loadTraceResolve (w : World) (g : Globals) : List Event :=
  [Event.dlsym (w.dlopen pathAEI) "SDL_Android_Init_Extras",
    Event.dlsym (w.dlopen pathSDL) "SDL_Android_Init",
    Event.dlsym (w.dlopen pathSDL) "SDL_SetMainReady",
    Event.dlsym (w.dlopen pathSDL) "Java_org_libsdl_app_SDLActivity_onNativeResize",
    Event.dlsym (w.dlopen pathCore) "CoreDoCommand",
    Event.dlsym (w.dlopen pathFront) "SDL_main"]
  ++ (if anyFunctionNull (afterResolve w g) then [Event.LOGE msgNoFunctions] else [])

/-- The path of a `dlopen` call. -/
def openedPath : Event → Option String
  | Event.dlopen path => some path
  | _ => none

/-- The handle of a `dlclose` call. -/
def closedHandle : Event → Option Ptr
  | Event.dlclose h => some h
  | _ => none

/-- The function pointer of a call through a function pointer. -/
def calledFunction : Event → Option Ptr
  | Event.call f _ => some f
  | _ => none

/-- The calls of the loop of `sdlInit` for the elements `elems`, the first of which has
index `i`; the loop stops at a null element. -/
def argTrace (w : World) (array : Ptr) : Nat → List (Option jstring) → List Event
  | _, [] => []
  | i, none :: _ => [Event.GetObjectArrayElement array i]
  | i, some jarg :: rest =>
    [Event.GetObjectArrayElement array i, Event.GetStringUTFChars jarg,
      Event.strdup (w.GetStringUTFChars jarg),
      Event.ReleaseStringUTFChars jarg (w.GetStringUTFChars jarg)]
    ++ argTrace w array (i + 1) rest

/-- Static variables with every function pointer resolved. -/
def loadedGlobals : Globals := ⟨3, 4, 7, 7, 7, 7, 11, 12, 13, 14, 15, 16⟩

/-- The values of the `m64p_emu_state` enumerators in the core's `m64p_types.h`. -/
def coreEmuStates : m64p_emu_state := ⟨1, 2, 3⟩

/-! ## Specification-level definitions -/

/-- The string `s` without its leading and its trailing whitespace. -/
def trim_spec (s : List Nat) : List Nat :=
  (s.dropWhile isspace).rdropWhile isspace

/-! ## Facts about `swap_rom` -/

theorem xor_one_eq (j : Nat) : j ^^^ 1 = if j % 2 = 0 then j + 1 else j - 1 := by
  have h1 : (j ^^^ 1) / 2 = j / 2 := by simp [Nat.xor_div_two]
  have h2 : (j ^^^ 1) % 2 = (j + 1) % 2 := by simp [Nat.xor_mod_two_eq]
  split_ifs <;> omega

theorem xor_three_eq (j : Nat) : j ^^^ 3 = 4 * (j / 4) + (3 - j % 4) := by
  have h1 : (j ^^^ 3) / 2 = (j / 2) ^^^ 1 := by simp [Nat.xor_div_two]
  have h2 : (j ^^^ 3) % 2 = (j + 3) % 2 := by simp [Nat.xor_mod_two_eq]
  have h3 := xor_one_eq (j / 2)
  split_ifs at h3 <;> omega

theorem getElem?_set2 (l : List Nat) (a b : Nat) (x y : Nat) (j : Nat)
    (ha : a < l.length) (hb : b < l.length) :
    ((l.set a x).set b y)[j]? = if j = b then some y else if j = a then some x else l[j]? := by
  simp only [List.getElem?_set, List.length_set]
  by_cases h1 : b = j <;> by_cases h2 : a = j <;> simp [h1, h2, ha, hb, eq_comm] <;> omega

/-- The byteswap loop on an even range: it returns, and has swapped each pair from `i`
up to `n`. -/
theorem swap_rom_byteswap_run (n : Nat) (hn : (n : Int) ≤ INT_MAX) (hn2 : n % 2 = 0)
    (fuel : Nat) :
    ∀ (i : Nat) (rom : List Nat), i % 2 = 0 → i ≤ n → n ≤ rom.length → n ≤ i + 2 * fuel →
      ∃ out, swap_rom_byteswap n fuel i rom = some out ∧ out.length = rom.length ∧
        ∀ j, out[j]? = if i ≤ j ∧ j < n then rom[j ^^^ 1]? else rom[j]? := by
  induction fuel with
  | zero =>
    intro i rom _ hi _ hf
    refine ⟨rom, ?_, rfl, ?_⟩
    · have : ¬ ((i : Int) < (n : Int)) := by omega
      simp [swap_rom_byteswap, this]
    · intro j
      have : ¬ (i ≤ j ∧ j < n) := by omega
      simp [this]
  | succ fuel ih =>
    intro i rom hi2 hi hlen hf
    by_cases hlt : i < n
    · have hlt2 : ((i : Int) < (n : Int)) := by exact_mod_cast hlt
      have h1 : i + 1 < rom.length := by omega
      have h0 : i < rom.length := by omega
      have hov : ¬ ((i : Int) + 2 > INT_MAX) := by
        have : (i : Int) + 2 ≤ n := by omega
        omega
      obtain ⟨out, hout, holen, hoj⟩ := ih (i + 2) ((rom.set i rom[i + 1]).set (i + 1) rom[i])
        (by omega) (by omega) (by simp; omega) (by omega)
      refine ⟨out, ?_, ?_, ?_⟩
      · simp [swap_rom_byteswap, hlt2, readByte, writeByte, h0, h1, hov,
          List.getElem?_eq_getElem h0, List.getElem?_eq_getElem h1, hout]
      · simpa using holen
      · intro j
        rw [hoj j]
        have hx := xor_one_eq j
        rw [getElem?_set2 rom i (i + 1) _ _ _ h0 h1,
          getElem?_set2 rom i (i + 1) _ _ _ h0 h1]
        by_cases c1 : j = i
        · subst c1
          have : j ^^^ 1 = j + 1 := by rw [hx]; simp [hi2]
          simp [this, hlt, List.getElem?_eq_getElem h1]
        · by_cases c2 : j = i + 1
          · subst c2
            have : (i + 1) ^^^ 1 = i := by rw [hx]; rw [if_neg (by omega)]; omega
            have c5 : i + 1 < n := by omega
            simp [this, c5, List.getElem?_eq_getElem h0]
          · by_cases c3 : i + 2 ≤ j ∧ j < n
            · have hx1 : j ^^^ 1 ≠ i + 1 := by rw [hx]; split_ifs <;> omega
              have hx2 : j ^^^ 1 ≠ i := by rw [hx]; split_ifs <;> omega
              have c4 : i ≤ j ∧ j < n := by omega
              simp [c3, c4, hx1, hx2]
            · have c4 : ¬ (i ≤ j ∧ j < n) := by omega
              simp [c1, c2, c3, c4]
    · have hlt2 : ¬ ((i : Int) < (n : Int)) := by omega
      refine ⟨rom, ?_, rfl, ?_⟩
      · simp [swap_rom_byteswap, hlt2]
      · intro j
        have : ¬ (i ≤ j ∧ j < n) := by omega
        simp [this]

/-- The wordswap loop on a range of whole words: it returns, and has reversed each word
from `i` up to `n`. -/
theorem swap_rom_wordswap_run (n : Nat) (hn : (n : Int) ≤ INT_MAX) (hn4 : n % 4 = 0)
    (fuel : Nat) :
    ∀ (i : Nat) (rom : List Nat), i % 4 = 0 → i ≤ n → n ≤ rom.length → n ≤ i + 4 * fuel →
      ∃ out, swap_rom_wordswap n fuel i rom = some out ∧ out.length = rom.length ∧
        ∀ j, out[j]? = if i ≤ j ∧ j < n then rom[j ^^^ 3]? else rom[j]? := by
  induction fuel with
  | zero =>
    intro i rom _ hi _ hf
    refine ⟨rom, ?_, rfl, ?_⟩
    · have : ¬ ((i : Int) < (n : Int)) := by omega
      simp [swap_rom_wordswap, this]
    · intro j
      have : ¬ (i ≤ j ∧ j < n) := by omega
      simp [this]
  | succ fuel ih =>
    intro i rom hi4 hi hlen hf
    by_cases hlt : i < n
    · have hlt2 : ((i : Int) < (n : Int)) := by exact_mod_cast hlt
      have h0 : i < rom.length := by omega
      have h1 : i + 1 < rom.length := by omega
      have h2 : i + 2 < rom.length := by omega
      have h3 : i + 3 < rom.length := by omega
      have hov : ¬ ((i : Int) + 4 > INT_MAX) := by
        have : (i : Int) + 4 ≤ n := by omega
        omega
      obtain ⟨out, hout, holen, hoj⟩ := ih (i + 4)
        ((((rom.set i rom[i + 3]).set (i + 3) rom[i]).set (i + 1) rom[i + 2]).set (i + 2)
          rom[i + 1])
        (by omega) (by omega) (by simp; omega) (by omega)
      have hq : ∀ m, ((((rom.set i rom[i + 3]).set (i + 3) rom[i]).set (i + 1)
          rom[i + 2]).set (i + 2) rom[i + 1])[m]? =
          if m = i + 2 then rom[i + 1]? else if m = i + 1 then rom[i + 2]?
          else if m = i + 3 then rom[i]? else if m = i then rom[i + 3]? else rom[m]? := by
        intro m
        simp only [List.getElem?_set, List.length_set, List.getElem?_eq_getElem h0,
          List.getElem?_eq_getElem h1, List.getElem?_eq_getElem h2, List.getElem?_eq_getElem h3]
        split_ifs <;> first | rfl | omega
      refine ⟨out, ?_, ?_, ?_⟩
      · simp [swap_rom_wordswap, hlt2, readByte, writeByte, h0, h1, h2, h3, hov,
          List.getElem?_eq_getElem h0, List.getElem?_eq_getElem h3, List.getElem?_set, hout]
      · simpa using holen
      · intro j
        rw [hoj j, hq, hq, xor_three_eq]
        split_ifs <;> first | rfl | omega | (congr 1; omega)
    · have hlt2 : ¬ ((i : Int) < (n : Int)) := by omega
      refine ⟨rom, ?_, rfl, ?_⟩
      · simp [swap_rom_wordswap, hlt2]
      · intro j
        have : ¬ (i ≤ j ∧ j < n) := by omega
        simp [this]

/-- What `swap_rom` does on a non-empty buffer when `loadlength` is a whole number of the
units it swaps. -/
theorem swap_rom_run (rom : List Nat) (loadlength : Int) (hne : rom ≠ [])
    (hlen : loadlength ≤ rom.length) (hint : loadlength ≤ INT_MAX)
    (h37 : rom[0]? = some 0x37 → 2 ∣ loadlength)
    (h40 : rom[0]? = some 0x40 → 4 ∣ loadlength) :
    ∃ out, swap_rom rom loadlength = some out ∧ out.length = rom.length ∧
      (rom[0]? = some 0x37 → ∀ i : Nat, (i : Int) < loadlength → out[i]? = rom[i ^^^ 1]?) ∧
      (rom[0]? = some 0x40 → ∀ i : Nat, (i : Int) < loadlength → out[i]? = rom[i ^^^ 3]?) ∧
      (rom[0]? ≠ some 0x37 → rom[0]? ≠ some 0x40 → out = rom) ∧
      (∀ i : Nat, loadlength ≤ (i : Int) → out[i]? = rom[i]?) := by
  obtain ⟨first, rest, rfl⟩ := List.exists_cons_of_ne_nil hne
  by_cases hpos : 0 ≤ loadlength
  · obtain ⟨n, rfl⟩ := Int.eq_ofNat_of_zero_le hpos
    have hlen2 : n ≤ (first :: rest).length := by exact_mod_cast hlen
    by_cases c37 : first = 0x37
    · have hd : n % 2 = 0 := by
        have := h37 (by simp [c37])
        omega
      obtain ⟨out, hout, holen, hoj⟩ :=
        swap_rom_byteswap_run n hint hd n 0 (first :: rest) rfl (by omega) hlen2 (by omega)
      refine ⟨out, ?_, holen, ?_, ?_, ?_, ?_⟩
      · simp [swap_rom, readByte, c37, ← hout]
      · intro _ i hi
        have hi2 : i < n := by exact_mod_cast hi
        rw [hoj i]
        simp [hi2]
      · intro h
        simp [c37] at h
      · intro h
        simp [c37] at h
      · intro i hi
        have hi2 : ¬ (0 ≤ i ∧ i < n) := by omega
        rw [hoj i, if_neg hi2]
    · by_cases c40 : first = 0x40
      · have hd : n % 4 = 0 := by
          have := h40 (by simp [c40])
          omega
        obtain ⟨out, hout, holen, hoj⟩ :=
          swap_rom_wordswap_run n hint hd n 0 (first :: rest) rfl (by omega) hlen2 (by omega)
        refine ⟨out, ?_, holen, ?_, ?_, ?_, ?_⟩
        · simp [swap_rom, readByte, c40, ← hout]
        · intro h
          simp [c40] at h
        · intro _ i hi
          have hi2 : i < n := by exact_mod_cast hi
          rw [hoj i]
          simp [hi2]
        · intro _ h
          simp [c40] at h
        · intro i hi
          have hi2 : ¬ (0 ≤ i ∧ i < n) := by omega
          rw [hoj i, if_neg hi2]
      · refine ⟨first :: rest, ?_, rfl, ?_, ?_, ?_, ?_⟩
        · simp [swap_rom, readByte, c37, c40]
        · intro h
          simp [c37] at h
        · intro h
          simp [c40] at h
        · intro _ _
          rfl
        · intro _ _
          rfl
  · have hneg : loadlength < 0 := by omega
    have htn : loadlength.toNat = 0 := by omega
    have hz : loadlength ≤ 0 := by omega
    refine ⟨first :: rest, ?_, rfl, ?_, ?_, ?_, ?_⟩
    · by_cases c37 : first = 0x37
      · simp [swap_rom, readByte, c37, htn, swap_rom_byteswap, hz]
      · by_cases c40 : first = 0x40
        · simp [swap_rom, readByte, c40, htn, swap_rom_wordswap, hz]
        · simp [swap_rom, readByte, c37, c40]
    · intro _ i hi
      omega
    · intro _ i hi
      omega
    · intro _ _
      rfl
    · intro _ _
      rfl

theorem strlen_append (body rest : List Nat) (h : ∀ c ∈ body, c ≠ 0) :
    strlen (body ++ 0 :: rest) = some body.length := by
  induction body with
  | nil => simp [strlen]
  | cons c cs ih =>
    have hc : c ≠ 0 := h c (by simp)
    have := ih (fun x hx => h x (by simp [hx]))
    simp [strlen, hc, this]

/-! ## Facts about `trim` -/

theorem cstr_append (body rest : List Nat) (h : ∀ c ∈ body, c ≠ 0) :
    cstr (body ++ 0 :: rest) = body := by
  induction body with
  | nil => simp [cstr]
  | cons c cs ih =>
    have hc : c ≠ 0 := h c (by simp)
    have := ih (fun x hx => h x (by simp [hx]))
    simp only [cstr] at this ⊢
    simp [List.takeWhile_cons, hc, this]

theorem strlen_le_of_nul : ∀ (l : List Nat) (n : Nat), l[n]? = some 0 →
    ∃ m, m ≤ n ∧ strlen l = some m := by
  intro l
  induction l with
  | nil => intro n h; simp at h
  | cons c cs ih =>
    intro n h
    by_cases hc : c = 0
    · exact ⟨0, by omega, by simp [strlen, hc]⟩
    · cases n with
      | zero => simp at h; exact absurd h hc
      | succ n =>
        simp at h
        obtain ⟨m, hm, hs⟩ := ih n h
        exact ⟨m + 1, by omega, by simp [strlen, hc, hs]⟩

theorem strlen_of_index : ∀ (L : Nat) (l : List Nat),
    (∀ j, j < L → ∃ c, l[j]? = some c ∧ c ≠ 0) → l[L]? = some 0 → strlen l = some L := by
  intro L
  induction L with
  | zero =>
    intro l _ h0
    cases l with
    | nil => simp at h0
    | cons c cs => simp at h0; simp [strlen, h0]
  | succ L ih =>
    intro l hb h0
    cases l with
    | nil => simp at h0
    | cons c cs =>
      obtain ⟨c0, hc0, hne⟩ := hb 0 (by omega)
      simp at hc0
      subst hc0
      have := ih cs (fun j hj => by simpa using hb (j + 1) (by omega)) (by simpa using h0)
      simp [strlen, hne, this]

theorem trim_skip_append (ws tail : List Nat) (c : Nat) (p : Nat) (h : ∀ x ∈ ws, isspace x = true)
    (hc : isspace c = false) : trim_skip (ws ++ c :: tail) p = some (p + ws.length) := by
  induction ws generalizing p with
  | nil => simp [trim_skip, hc]
  | cons x xs ih =>
    have hx : isspace x = true := h x (by simp)
    have := ih (p + 1) (fun y hy => h y (by simp [hy]))
    simp [trim_skip, hx, this]
    omega

theorem getElem?_mid (a b : List Nat) (x : Nat) (n : Nat) (h : n = a.length) :
    (a ++ x :: b)[n]? = some x := by
  subst h
  rw [List.getElem?_append_right (Nat.le_refl _)]
  simp

theorem trim_back_append (core tail : List Nat) (x : Nat) (hx : isspace x = false) :
    ∀ (tws : List Nat), (∀ y ∈ tws, isspace y = true) →
      trim_back (core ++ x :: (tws ++ tail)) (core.length + tws.length) = some core.length := by
  intro tws
  induction tws using List.reverseRecOn generalizing tail with
  | nil =>
    intro _
    have hget : (core ++ x :: ([] ++ tail))[core.length]? = some x :=
      getElem?_mid core _ x _ rfl
    cases hcl : core.length with
    | zero =>
      rw [hcl] at hget
      simp only [List.length_nil, Nat.add_zero, trim_back, readByte, hget]
      simp [hx]
    | succ n =>
      rw [hcl] at hget
      simp only [List.length_nil, Nat.add_zero, trim_back, readByte, hget]
      simp [hx]
  | append_singleton tws y ih =>
    intro hall
    have hy : isspace y = true := hall y (by simp)
    have hrec := ih (y :: tail) (fun z hz => hall z (by simp [hz]))
    have hlist : core ++ x :: (tws ++ [y] ++ tail) = core ++ x :: (tws ++ y :: tail) := by simp
    have hget : (core ++ x :: (tws ++ y :: tail))[core.length + tws.length + 1]? = some y := by
      have := getElem?_mid (core ++ x :: tws) tail y (core.length + tws.length + 1) (by simp; omega)
      simpa using this
    rw [hlist]
    simp only [List.length_append, List.length_singleton, ← Nat.add_assoc, trim_back, readByte,
      hget]
    simp only [Option.bind_eq_bind, Option.some_bind, hy, if_true, hrec]

/-- The copy loop of `trim`: with `L` non-NUL characters and then a NUL from offset `k` on
(`k` at least 1), it returns, having moved these `L + 1` bytes to the start. -/
theorem trim_copy_run (orig : List Nat) (k L : Nat) (hk : 1 ≤ k)
    (hbody : ∀ j, j < L → ∃ c, orig[k + j]? = some c ∧ c ≠ 0)
    (hnul : orig[k + L]? = some 0) (hL : L + 1 < 4294967296) (fuel : Nat) :
    ∀ (i : Nat) (cur : List Nat), i ≤ L + 1 → L + 2 ≤ i + fuel → cur.length = orig.length →
      (∀ j, cur[j]? = if j < i then orig[k + j]? else orig[j]?) →
      ∃ out, trim_copy k fuel i cur = some out ∧ out.length = orig.length ∧
        ∀ j, out[j]? = if j ≤ L then orig[k + j]? else orig[j]? := by
  have hvalid : k + L < orig.length := by
    by_contra hcon
    rw [List.getElem?_eq_none (by omega)] at hnul
    simp at hnul
  induction fuel with
  | zero =>
    intro i cur hi hf
    omega
  | succ fuel ih =>
    intro i cur hi hf hlen hinv
    by_cases hiL : i ≤ L
    · have hs : strlen (cur.drop k) = some L := by
        apply strlen_of_index
        · intro j hj
          rw [List.getElem?_drop, hinv]
          by_cases c : k + j < i
          · rw [if_pos c]
            exact hbody (k + j) (by omega)
          · rw [if_neg c]
            exact hbody j hj
        · rw [List.getElem?_drop, hinv, if_neg (by omega)]
          exact hnul
      have hread : ∃ c, cur[k + i]? = some c ∧ orig[k + i]? = some c := by
        rw [hinv, if_neg (by omega)]
        by_cases c : i < L
        · obtain ⟨c0, h0, _⟩ := hbody i c
          exact ⟨c0, h0, h0⟩
        · have : i = L := by omega
          subst this
          exact ⟨0, hnul, hnul⟩
      obtain ⟨c, hc, hc2⟩ := hread
      have hilen : i < cur.length := by omega
      have hmod : (i + 1) % 4294967296 = i + 1 := Nat.mod_eq_of_lt (by omega)
      obtain ⟨out, hout, holen, hoj⟩ := ih (i + 1) (cur.set i c) (by omega) (by omega)
        (by simp [hlen]) (by
          intro j
          rw [List.getElem?_set]
          by_cases cj : i = j
          · subst cj
            simp [hilen, hc2]
          · rw [if_neg cj, hinv]
            by_cases c1 : j < i
            · rw [if_pos c1, if_pos (by omega)]
            · rw [if_neg c1, if_neg (by omega)])
      refine ⟨out, ?_, holen, hoj⟩
      simp only [trim_copy, hs, readByte, writeByte, hc, hilen, hmod, Option.bind_eq_bind,
        Option.some_bind, if_pos hiL, if_true, hout]
    · have hiL2 : i = L + 1 := by omega
      subst hiL2
      have hs : ∃ m, m ≤ L ∧ strlen (cur.drop k) = some m := by
        by_cases c : k ≤ L
        · obtain ⟨m, hm, hsm⟩ := strlen_le_of_nul (cur.drop k) (L - k) (by
            rw [List.getElem?_drop, hinv]
            have e : k + (L - k) = L := by omega
            rw [e, if_pos (by omega)]
            exact hnul)
          exact ⟨m, by omega, hsm⟩
        · exact strlen_le_of_nul (cur.drop k) L (by
            rw [List.getElem?_drop, hinv, if_neg (by omega)]
            exact hnul)
      obtain ⟨m, hm, hsm⟩ := hs
      refine ⟨cur, ?_, hlen, ?_⟩
      · simp only [trim_copy, hsm, Option.bind_eq_bind, Option.some_bind,
          if_neg (by omega : ¬ (L + 1 ≤ m))]
      · intro j
        rw [hinv]
        by_cases c : j ≤ L
        · rw [if_pos (by omega), if_pos c]
        · rw [if_neg (by omega), if_neg c]

theorem isspace_ne_zero (x : Nat) (h : isspace x = true) : x ≠ 0 := by
  intro hx
  subst hx
  simp [isspace] at h

/-- What `trim` does on a buffer that holds leading whitespace `ws`, then `core`, then
trailing whitespace `tws`, then the NUL. -/
theorem trim_run (ws core tws rest : List Nat)
    (hws : ∀ x ∈ ws, isspace x = true) (htws : ∀ x ∈ tws, isspace x = true)
    (hcore0 : ∀ x ∈ core, x ≠ 0)
    (hhead : ∀ x, core.head? = some x → isspace x = false)
    (hlast : ∀ x, core.getLast? = some x → isspace x = false)
    (hempty : core = [] → tws = [])
    (hsize : (ws ++ (core ++ tws) ++ 0 :: rest).length < 4294967296) :
    ∃ rest2, trim (ws ++ (core ++ tws) ++ 0 :: rest) = some (0, core ++ 0 :: rest2) ∧
      (core ++ 0 :: rest2).length = (ws ++ (core ++ tws) ++ 0 :: rest).length := by
  have hbody0 : ∀ x ∈ core ++ tws, x ≠ 0 := by
    intro x hx
    rcases List.mem_append.mp hx with h | h
    · exact hcore0 x h
    · exact isspace_ne_zero x (htws x h)
  -- the forward scan
  have hskip : trim_skip (ws ++ (core ++ tws) ++ 0 :: rest) 0 = some ws.length := by
    cases core with
    | nil =>
      have := hempty rfl
      subst this
      have := trim_skip_append ws rest 0 0 hws (by decide)
      simpa using this
    | cons x core2 =>
      have hx : isspace x = false := hhead x rfl
      have := trim_skip_append ws (core2 ++ tws ++ 0 :: rest) x 0 hws hx
      simpa using this
  -- the copy
  have hcopy : ∃ rest1,
      (if ws.length ≠ 0 then
        trim_copy ws.length ((ws ++ (core ++ tws) ++ 0 :: rest).length + 1) 0
          (ws ++ (core ++ tws) ++ 0 :: rest)
      else some (ws ++ (core ++ tws) ++ 0 :: rest)) = some ((core ++ tws) ++ 0 :: rest1) ∧
      ((core ++ tws) ++ 0 :: rest1).length = (ws ++ (core ++ tws) ++ 0 :: rest).length := by
    by_cases hk : ws.length = 0
    · have : ws = [] := List.length_eq_zero.mp hk
      subst this
      exact ⟨rest, by simp, by simp⟩
    · have hidx : ∀ j, (ws ++ (core ++ tws) ++ 0 :: rest)[ws.length + j]? =
          ((core ++ tws) ++ 0 :: rest)[j]? := by
        intro j
        rw [List.append_assoc, List.getElem?_append_right (by omega)]
        simp
      obtain ⟨out, hout, holen, hoj⟩ := trim_copy_run (ws ++ (core ++ tws) ++ 0 :: rest)
        ws.length (core ++ tws).length (by omega)
        (by
          intro j hj
          rw [hidx, List.getElem?_append_left hj]
          exact ⟨(core ++ tws)[j], List.getElem?_eq_getElem hj,
            hbody0 _ (List.getElem_mem _)⟩)
        (by
          rw [hidx]
          exact getElem?_mid _ _ _ _ rfl)
        (by
          simp only [List.length_append, List.length_cons] at hsize ⊢
          omega)
        ((ws ++ (core ++ tws) ++ 0 :: rest).length + 1) 0 (ws ++ (core ++ tws) ++ 0 :: rest)
        (by omega)
        (by
          simp only [List.length_append, List.length_cons]
          omega)
        rfl
        (by
          intro j
          simp)
      have htake : out.take ((core ++ tws).length + 1) = (core ++ tws) ++ [0] := by
        apply List.ext_getElem?
        intro j
        rw [List.getElem?_take]
        by_cases c : j < (core ++ tws).length + 1
        · rw [if_pos c, hoj, if_pos (by omega), hidx]
          by_cases c2 : j < (core ++ tws).length
          · rw [List.getElem?_append_left c2, List.getElem?_append_left c2]
          · have : j = (core ++ tws).length := by omega
            rw [getElem?_mid _ _ _ _ this, List.getElem?_append_right (by omega)]
            simp [this]
        · have hge : ((core ++ tws) ++ [0]).length ≤ j := by
            simp only [List.length_append, List.length_singleton] at c ⊢
            omega
          rw [if_neg c, List.getElem?_eq_none hge]
      refine ⟨out.drop ((core ++ tws).length + 1), ?_, ?_⟩
      · rw [if_pos hk, hout]
        congr 1
        have := (List.take_append_drop ((core ++ tws).length + 1) out).symm
        rw [htake] at this
        simpa using this
      · have h1 := congrArg List.length (List.take_append_drop ((core ++ tws).length + 1) out)
        rw [htake] at h1
        simp only [List.length_append, List.length_cons, List.length_nil] at h1 holen ⊢
        omega
  obtain ⟨rest1, hcopy1, hlen1⟩ := hcopy
  have hstrlen : strlen ((core ++ tws) ++ 0 :: rest1) = some (core ++ tws).length :=
    strlen_append _ _ hbody0
  by_cases hgt : ((core ++ tws).length : Int) - 1 > 0
  · -- the backward scan
    have hne : core ≠ [] := by
      intro h
      have := hempty h
      subst h
      subst this
      simp at hgt
    obtain ⟨core2, x, hcx⟩ : ∃ core2 x, core = core2 ++ [x] :=
      ⟨core.dropLast, core.getLast hne, (List.dropLast_append_getLast hne).symm⟩
    have hx : isspace x = false := hlast x (by simp [hcx])
    have hback := trim_back_append core2 (0 :: rest1) x hx tws htws
    have hlist : (core ++ tws) ++ 0 :: rest1 = core2 ++ x :: (tws ++ 0 :: rest1) := by
      simp [hcx]
    have htn : (((core ++ tws).length : Int) - 1).toNat = core2.length + tws.length := by
      simp [hcx]
      omega
    have hset : ∃ rest2, writeByte (core2 ++ x :: (tws ++ 0 :: rest1)) (core2.length + 1) 0 =
        some (core ++ 0 :: rest2) ∧
        (core ++ 0 :: rest2).length = (core2 ++ x :: (tws ++ 0 :: rest1)).length := by
      cases htl : tws ++ 0 :: rest1 with
      | nil => simp at htl
      | cons y t =>
        refine ⟨t, ?_, by simp [hcx]⟩
        have e : core2 ++ x :: y :: t = (core2 ++ [x]) ++ y :: t := by simp
        rw [e]
        unfold writeByte
        rw [if_pos (by simp)]
        rw [List.set_append_right _ _ (by simp)]
        simp [hcx]
    obtain ⟨rest2, hw, hlen2⟩ := hset
    refine ⟨rest2, ?_, ?_⟩
    · simp only [trim, hskip, hcopy1, hstrlen, Option.bind_eq_bind, Option.some_bind,
        if_pos hgt, htn]
      rw [hlist, hback]
      simp only [Option.some_bind, hw]
    · rw [hlen2, ← hlist, hlen1]
  · have htw : tws = [] := by
      cases core with
      | nil => exact hempty rfl
      | cons x c2 =>
        simp at hgt
        exact List.length_eq_zero.mp (by omega)
    subst htw
    refine ⟨rest1, ?_, ?_⟩
    · simp only [trim, hskip, hcopy1, hstrlen, Option.bind_eq_bind, Option.some_bind,
        if_neg hgt]
      simp
    · simpa using hlen1

/-- Every buffer with a NUL splits into leading whitespace, a core that neither starts nor
ends with whitespace, trailing whitespace, the NUL and the rest. -/
theorem buffer_decomp (buf : List Nat) (h : 0 ∈ buf) :
    ∃ ws core tws rest, buf = ws ++ (core ++ tws) ++ 0 :: rest ∧
      (∀ x ∈ ws, isspace x = true) ∧ (∀ x ∈ tws, isspace x = true) ∧
      (∀ x ∈ core, x ≠ 0) ∧
      (∀ x, core.head? = some x → isspace x = false) ∧
      (∀ x, core.getLast? = some x → isspace x = false) ∧
      (core = [] → tws = []) ∧
      cstr buf = ws ++ (core ++ tws) ∧ trim_spec (cstr buf) = core := by
  have hsplit : buf.takeWhile (fun c => c != 0) ++ buf.dropWhile (fun c => c != 0) = buf :=
    List.takeWhile_append_dropWhile _ _
  have hr : buf.dropWhile (fun c => c != 0) ≠ [] := by
    intro hnil
    rw [List.dropWhile_eq_nil_iff] at hnil
    have := hnil 0 h
    simp at this
  obtain ⟨y, rest, hyr⟩ := List.exists_cons_of_ne_nil hr
  have hy : y = 0 := by
    have := List.head?_dropWhile_not (fun c => c != 0) buf
    rw [hyr] at this
    simpa using this
  subst hy
  have hbody : (cstr buf).takeWhile isspace ++ (cstr buf).dropWhile isspace = cstr buf :=
    List.takeWhile_append_dropWhile _ _
  have hct : ∀ l : List Nat, l.rdropWhile isspace ++ l.rtakeWhile isspace = l := by
    intro l
    simp only [List.rdropWhile, List.rtakeWhile, ← List.reverse_append,
      List.takeWhile_append_dropWhile, List.reverse_reverse]
  have hheadbody : ∀ x, ((cstr buf).dropWhile isspace).head? = some x → isspace x = false := by
    intro x hx
    have := List.head?_dropWhile_not isspace (cstr buf)
    rw [hx] at this
    simpa using this
  refine ⟨(cstr buf).takeWhile isspace, ((cstr buf).dropWhile isspace).rdropWhile isspace,
    ((cstr buf).dropWhile isspace).rtakeWhile isspace, rest, ?_, ?_, ?_, ?_, ?_, ?_, ?_, ?_, rfl⟩
  · rw [hct, hbody]
    unfold cstr
    rw [← hyr, hsplit]
  · intro x hx
    exact List.mem_takeWhile_imp hx
  · intro x hx
    exact List.mem_rtakeWhile_imp hx
  · intro x hx
    have h1 : x ∈ (cstr buf).dropWhile isspace := by
      rw [← hct ((cstr buf).dropWhile isspace)]
      exact List.mem_append_left _ hx
    have h2 : x ∈ cstr buf := List.dropWhile_subset _ h1
    have h3 := List.mem_takeWhile_imp h2
    simpa using h3
  · intro x hx
    apply hheadbody
    rw [← hct ((cstr buf).dropWhile isspace)]
    cases hc : ((cstr buf).dropWhile isspace).rdropWhile isspace with
    | nil => rw [hc] at hx; simp at hx
    | cons a l => rw [hc] at hx; simpa using hx
  · intro x hx
    have hne : ((cstr buf).dropWhile isspace).rdropWhile isspace ≠ [] := by
      intro hnil
      rw [hnil] at hx
      simp at hx
    have := List.rdropWhile_last_not isspace ((cstr buf).dropWhile isspace) hne
    rw [List.getLast?_eq_getLast _ hne] at hx
    have hxe : x = (((cstr buf).dropWhile isspace).rdropWhile isspace).getLast hne :=
      (Option.some.inj hx).symm
    rw [hxe]
    simpa using this
  · intro hnil
    rw [List.rdropWhile_eq_nil_iff] at hnil
    cases hb : (cstr buf).dropWhile isspace with
    | nil => simp [List.rtakeWhile]
    | cons b l =>
      have h1 := hheadbody b (by rw [hb]; rfl)
      have h2 := hnil b (by rw [hb]; simp)
      rw [h1] at h2
      simp at h2
  · rw [hct, hbody]

/-! ## Facts about the runs of the native methods -/

@[simp] theorem run_pure {α : Type} (a : α) (g : Globals) :
    (pure a : Exec α) g = ⟨[], g, some a⟩ := rfl

theorem run_bind {α β : Type} (m : Exec α) (f : α → Exec β) (g : Globals) :
    (m >>= f) g = Exec.andThen m f g := rfl

/-- When the first `JNI_OnLoad` lookup fails, `loadLibraries` stops at the call through it. -/
theorem loadLibraries_run_null0 (w : World) (env cls : Ptr) (g : Globals)
    (h0 : w.dlsym (w.dlopen pathAEI) "JNI_OnLoad" = 0) :
    loadLibraries w env cls g =
      ⟨loadTraceOpen w g ++ [Event.call 0 [Arg.ptr g.mVm, Arg.ptr g.mReserved]],
        afterOpen w g, none⟩ := by
  by_cases hh : anyHandleNull (afterOpen w g) <;> have hh2 := hh <;>
    simp only [anyHandleNull, afterOpen] at hh2 <;>
    simp only [loadTraceOpen, hh, if_true, if_false] <;>
    simp [loadLibraries, run_bind, Exec.andThen, emit, dlopen, dlsym, modifyGlobals, getGlobals,
      invoke, loadTraceOpen, afterOpen, h0, hh, hh2]

/-- When only the second `JNI_OnLoad` lookup fails, `loadLibraries` stops at the call
through it. -/
theorem loadLibraries_run_null1 (w : World) (env cls : Ptr) (g : Globals)
    (h0 : w.dlsym (w.dlopen pathAEI) "JNI_OnLoad" ≠ 0)
    (h1 : w.dlsym (w.dlopen pathSDL) "JNI_OnLoad" = 0) :
    loadLibraries w env cls g =
      ⟨loadTraceOpen w g ++
        [Event.call (w.dlsym (w.dlopen pathAEI) "JNI_OnLoad") [Arg.ptr g.mVm, Arg.ptr g.mReserved],
         Event.call 0 [Arg.ptr g.mVm, Arg.ptr g.mReserved]],
        afterOpen w g, none⟩ := by
  by_cases hh : anyHandleNull (afterOpen w g) <;> have hh2 := hh <;>
    simp only [anyHandleNull, afterOpen] at hh2 <;>
    simp only [loadTraceOpen, hh, if_true, if_false] <;>
    simp [loadLibraries, run_bind, Exec.andThen, emit, dlopen, dlsym, modifyGlobals, getGlobals,
      invoke, loadTraceOpen, afterOpen, h0, h1, hh, hh2]

/-- When both `JNI_OnLoad` lookups succeed, `loadLibraries` runs to its end. -/
theorem loadLibraries_run_ok (w : World) (env cls : Ptr) (g : Globals)
    (h0 : w.dlsym (w.dlopen pathAEI) "JNI_OnLoad" ≠ 0)
    (h1 : w.dlsym (w.dlopen pathSDL) "JNI_OnLoad" ≠ 0) :
    loadLibraries w env cls g =
      ⟨loadTraceOpen w g ++
        [Event.call (w.dlsym (w.dlopen pathAEI) "JNI_OnLoad") [Arg.ptr g.mVm, Arg.ptr g.mReserved],
         Event.call (w.dlsym (w.dlopen pathSDL) "JNI_OnLoad") [Arg.ptr g.mVm, Arg.ptr g.mReserved]]
        ++ loadTraceResolve w g,
        afterResolve w g, some ()⟩ := by
  by_cases hh : anyHandleNull (afterOpen w g) <;>
  by_cases hf : anyFunctionNull (afterResolve w g) <;>
  have hh2 := hh <;> have hf2 := hf <;>
    simp only [anyHandleNull, anyFunctionNull, afterOpen, afterResolve] at hh2 hf2 <;>
    simp only [loadTraceOpen, loadTraceResolve, hh, hf, if_true, if_false] <;>
    simp [loadLibraries, run_bind, Exec.andThen, emit, dlopen, dlsym, modifyGlobals, getGlobals,
      invoke, loadTraceOpen, loadTraceResolve, afterOpen, afterResolve, h0, h1, hh, hf, hh2, hf2]

/-- What `unloadLibraries` does, for every state of the static variables. -/
theorem unloadLibraries_run (env cls : Ptr) (g : Globals) :
    unloadLibraries env cls g =
      ⟨Event.LOGI msgUnloading ::
          ([g.handleFront, g.handleCore, g.handleSDL, g.handleAEI].filter (fun h => h != 0)).map
            Event.dlclose,
        notLoaded g.mVm g.mReserved, some ()⟩ := by
  by_cases h1 : g.handleFront = 0 <;> by_cases h2 : g.handleCore = 0 <;>
  by_cases h3 : g.handleSDL = 0 <;> by_cases h4 : g.handleAEI = 0 <;>
    simp [unloadLibraries, run_bind, Exec.andThen, emit, modifyGlobals, getGlobals, notLoaded,
      List.filter_cons, h1, h2, h3, h4]

theorem toInt32_of_jint (x : Int) (h : -2147483648 ≤ x ∧ x < 2147483648) : toInt32 x = x := by
  unfold toInt32
  omega

theorem argTrace_no_call (w : World) (array : Ptr) (elems : List (Option jstring)) (i : Nat) :
    (argTrace w array i elems).filterMap calledFunction = [] := by
  induction elems generalizing i with
  | nil => simp [argTrace]
  | cons e rest ih =>
    cases e with
    | none => simp [argTrace, calledFunction]
    | some jarg => simp [argTrace, calledFunction, ih]

/-- The loop of `sdlInit` from index `i` on, when every element is a string that
`GetStringUTFChars` and `strdup` can copy and `argv` is not null unless the array is empty:
it comes back, having filled the entries from `i` on with copies of the elements from `i`
on. -/
theorem sdlInit_loop_run (w : World) (jargv : jobjectArray) (argv : Ptr)
    (helems : ∀ e ∈ jargv.elems, elementCopies w e)
    (hargv : jargv.elems ≠ [] → argv ≠ 0) (fuel : Nat) :
    ∀ (i : Nat) (entries : List (Option CharPtr)) (g : Globals),
      i + fuel = jargv.elems.length → entries.length = jargv.elems.length →
      sdlInit_loop w jargv (jargv.elems.length : Int) argv fuel i entries g =
        ⟨argTrace w jargv.ref i (jargv.elems.drop i), g,
          some (entries.take i ++ (jargv.elems.drop i).map (argvEntry w))⟩ := by
  induction fuel with
  | zero =>
    intro i entries g hi hlen
    have hi2 : i = jargv.elems.length := by omega
    subst hi2
    have htk : entries.take jargv.elems.length = entries := List.take_of_length_le (by omega)
    simp [sdlInit_loop, argTrace, htk]
  | succ fuel ih =>
    intro i entries g hi hlen
    have hlt : i < jargv.elems.length := by omega
    have hdrop : jargv.elems.drop i = jargv.elems[i] :: jargv.elems.drop (i + 1) :=
      List.drop_eq_getElem_cons hlt
    have hget : jargv.elems[i]? = some jargv.elems[i] := List.getElem?_eq_getElem hlt
    have hcast : ((i : Int) < (jargv.elems.length : Int)) := by exact_mod_cast hlt
    have hne : argv ≠ 0 := hargv (List.ne_nil_of_length_pos (by omega))
    have hcop := helems jargv.elems[i] (List.getElem_mem _)
    have htake : ∀ x : Option CharPtr, (entries.set i x).take (i + 1) = entries.take i ++ [x] := by
      intro x
      rw [List.set_eq_take_append_cons_drop, if_pos (by omega)]
      rw [List.take_append_eq_append_take]
      simp [List.length_take, Nat.min_eq_left (by omega : i ≤ entries.length)]
    rw [hdrop]
    cases he : jargv.elems[i] with
    | none =>
      rw [he] at hcop
      exact absurd hcop (by simp [elementCopies])
    | some s =>
      rw [he] at hcop hget
      obtain ⟨hc1, hc2⟩ := hcop
      have hrec := ih (i + 1)
        (entries.set i (some (strdupResult w (w.GetStringUTFChars s)))) g (by omega)
        (by simp [hlen])
      simp only [sdlInit_loop, if_pos hcast, hget, run_bind, Exec.andThen, emit,
        GetStringUTFChars, strdup, if_neg hc1, if_neg hne, hrec, htake, argTrace, argvEntry,
        Option.map_some']
      simp only [List.append_assoc, List.singleton_append, List.cons_append, List.nil_append,
        List.map_cons, Option.map_some']
      rfl

/-- The value of the local `state` of `emuGetState` after the query: what the core
stored, or the initial 0. -/
theorem emuGetState_run (k : m64p_emu_state) (w : World) (env cls : Ptr) (g : Globals)
    (hres : g.coreDoCommand ≠ 0) :
    emuGetState k w env cls g =
      ⟨[Event.call g.coreDoCommand [Arg.cmd .M64CMD_CORE_STATE_QUERY,
          Arg.coreParam .M64CORE_EMU_STATE, Arg.intRef 0]], g,
        some (if w.emuStateQuery.getD 0 = k.M64EMU_STOPPED then 1
          else if w.emuStateQuery.getD 0 = k.M64EMU_RUNNING then 2
          else if w.emuStateQuery.getD 0 = k.M64EMU_PAUSED then 3 else 0)⟩ := by
  cases hq : w.emuStateQuery with
  | none =>
    simp only [emuGetState, run_bind, Exec.andThen, getGlobals, invoke, hq, if_neg hres,
      Option.getD_none]
    split_ifs <;> simp
  | some v =>
    simp only [emuGetState, run_bind, Exec.andThen, getGlobals, invoke, hq, if_neg hres,
      Option.getD_some]
    split_ifs <;> simp

/-! ## The claims -/

/-- C1 (the code does not do this): in a world where `libae-imports.so` cannot be opened,
`loadLibraries` logs the failed load, looks `JNI_OnLoad` up in the null handle, gets a null
pointer and calls through it: the run does not reach its end, and its last step is the
call through `NULL`. -/
theorem C1_loadLibraries_calls_null_JNI_OnLoad :
    (loadLibraries worldNoAEI 1 2 (notLoaded 3 4)).result = none ∧
    (loadLibraries worldNoAEI 1 2 (notLoaded 3 4)).trace =
      [Event.LOGI msgLoading, Event.dlopen pathAEI, Event.dlopen pathSDL, Event.dlopen pathCore,
        Event.dlopen pathFront, Event.LOGE msgNoLibraries, Event.dlsym 0 "JNI_OnLoad",
        Event.dlsym 7 "JNI_OnLoad", Event.call 0 [Arg.ptr 3, Arg.ptr 4]] := by
  decide

/-- C2: for every state of the static variables, `unloadLibraries` comes back with the six
function pointers and the four handles null (the not-loaded state, `mVm` and `mReserved`
untouched); its calls are the log line and then one `dlclose` for each of `handleFront`,
`handleCore`, `handleSDL`, `handleAEI` that was not null, in that order, so none on a null
handle; and unloading again straight away makes no `dlclose` call and changes nothing. -/
theorem C2_unloadLibraries_resets (env cls env2 cls2 : Ptr) (g : Globals) :
    (unloadLibraries env cls g).result = some () ∧
    (unloadLibraries env cls g).globals = notLoaded g.mVm g.mReserved ∧
    (unloadLibraries env cls g).trace =
      Event.LOGI msgUnloading ::
        ([g.handleFront, g.handleCore, g.handleSDL, g.handleAEI].filter (fun h => h != 0)).map
          Event.dlclose ∧
    (unloadLibraries env cls g).trace.filterMap closedHandle =
      [g.handleFront, g.handleCore, g.handleSDL, g.handleAEI].filter (fun h => h != 0) ∧
    Event.dlclose 0 ∉ (unloadLibraries env cls g).trace ∧
    (unloadLibraries env2 cls2 (unloadLibraries env cls g).globals).trace.filterMap closedHandle
      = [] ∧
    (unloadLibraries env2 cls2 (unloadLibraries env cls g).globals).globals =
      (unloadLibraries env cls g).globals := by
  rw [unloadLibraries_run env cls g, unloadLibraries_run env2 cls2 (notLoaded g.mVm g.mReserved)]
  refine ⟨rfl, rfl, rfl, ?_, ?_, ?_, ?_⟩
  · by_cases h1 : g.handleFront = 0 <;> by_cases h2 : g.handleCore = 0 <;>
    by_cases h3 : g.handleSDL = 0 <;> by_cases h4 : g.handleAEI = 0 <;>
      simp [List.filter_cons, closedHandle, h1, h2, h3, h4]
  · simp
  · simp [notLoaded, closedHandle]
  · simp [notLoaded]

/-- C3: with `coreDoCommand` resolved, each of `emuPause`, `emuResume`, `emuStop`,
`emuAdvanceFrame`, `emuLoadSlot`, `emuSaveSlot` and, for every `jint` slot, `emuSetSlot`
comes back after exactly one outside call, the call through `coreDoCommand` with the
arguments listed, and leaves every static variable as it was. -/
theorem C3_emu_commands_forward (env cls : Ptr) (slotID : Int) (g : Globals)
    (hres : g.coreDoCommand ≠ 0) (hslot : -2147483648 ≤ slotID ∧ slotID < 2147483648) :
    emuPause env cls g =
      ⟨[Event.call g.coreDoCommand [Arg.cmd .M64CMD_PAUSE, Arg.int 0, Arg.ptr 0]], g, some ()⟩ ∧
    emuResume env cls g =
      ⟨[Event.call g.coreDoCommand [Arg.cmd .M64CMD_RESUME, Arg.int 0, Arg.ptr 0]], g, some ()⟩ ∧
    emuStop env cls g =
      ⟨[Event.call g.coreDoCommand [Arg.cmd .M64CMD_STOP, Arg.int 0, Arg.ptr 0]], g, some ()⟩ ∧
    emuAdvanceFrame env cls g =
      ⟨[Event.call g.coreDoCommand [Arg.cmd .M64CMD_ADVANCE_FRAME, Arg.int 0, Arg.ptr 0]], g,
        some ()⟩ ∧
    emuLoadSlot env cls g =
      ⟨[Event.call g.coreDoCommand [Arg.cmd .M64CMD_STATE_LOAD, Arg.int 0, Arg.ptr 0]], g,
        some ()⟩ ∧
    emuSaveSlot env cls g =
      ⟨[Event.call g.coreDoCommand [Arg.cmd .M64CMD_STATE_SAVE, Arg.int 1, Arg.ptr 0]], g,
        some ()⟩ ∧
    emuSetSlot env cls slotID g =
      ⟨[Event.call g.coreDoCommand [Arg.cmd .M64CMD_STATE_SET_SLOT, Arg.int slotID, Arg.ptr 0]], g,
        some ()⟩ := by
  simp [emuPause, emuResume, emuStop, emuAdvanceFrame, emuLoadSlot, emuSaveSlot, emuSetSlot,
    run_bind, Exec.andThen, getGlobals, invoke, hres, toInt32_of_jint slotID hslot]

/-- C3 at loaded static variables and slot 5. -/
theorem C3_emu_commands_forward_witness :
    (emuSetSlot 1 2 5 loadedGlobals).trace =
      [Event.call 15 [Arg.cmd .M64CMD_STATE_SET_SLOT, Arg.int 5, Arg.ptr 0]] ∧
    (emuSaveSlot 1 2 loadedGlobals).globals = loadedGlobals :=
  ⟨congrArg Run.trace
      (C3_emu_commands_forward 1 2 5 loadedGlobals (by decide) (by decide)).2.2.2.2.2.2,
    congrArg Run.globals
      (C3_emu_commands_forward 1 2 5 loadedGlobals (by decide) (by decide)).2.2.2.2.2.1⟩

/-- C4 as stated fails: it is not true that for every Java string array, with the four
functions resolved, `sdlInit` reaches `frontMain`. On a two-element array whose second
element is `null`, in a world where everything else succeeds, the run copies the first
element and stops at `GetStringUTFChars` on the null reference: `aeiInit`, `sdlInit` and
`sdlMainReady` were called, `frontMain` never is. And when `strdup` returns `NULL`, the
entry handed to `frontMain` is a null pointer, not a copy. -/
theorem C4_sdlInit_counterexample :
    ¬ (∀ jargv : jobjectArray,
        (sdlInit worldAll 1 2 jargv loadedGlobals).trace.filterMap calledFunction =
          [11, 12, 13, 16]) ∧
    (sdlInit worldAll 1 2 ⟨50, [some ⟨60⟩, none]⟩ loadedGlobals).result = none ∧
    (sdlInit worldAll 1 2 ⟨50, [some ⟨60⟩, none]⟩ loadedGlobals).trace =
      [Event.call 11 [Arg.ptr 1, Arg.ptr 2], Event.call 12 [Arg.ptr 1, Arg.ptr 2],
        Event.call 13 [], Event.GetArrayLength 50, Event.malloc 2,
        Event.GetObjectArrayElement 50 0, Event.GetStringUTFChars ⟨60⟩,
        Event.strdup ⟨160, [97, 0]⟩, Event.ReleaseStringUTFChars ⟨60⟩ ⟨160, [97, 0]⟩,
        Event.GetObjectArrayElement 50 1] ∧
    (sdlInit worldNoMemory 1 2 ⟨50, [some ⟨60⟩]⟩ loadedGlobals).trace.getLast? =
      some (Event.call 16 [Arg.int 1, Arg.argv 200 [some ⟨0, []⟩]]) := by
  refine ⟨?_, by decide, by decide, by decide⟩
  intro h
  have h1 := h ⟨50, [some ⟨60⟩, none]⟩
  revert h1
  decide

/-- C4, amended: with `aeiInit`, `sdlInit`, `sdlMainReady` and `frontMain` resolved, for
every Java string array that has no null element, when `GetStringUTFChars` and `strdup`
return non-null for each element and `malloc` returns non-null (needed only for a
non-empty array), `sdlInit` comes back and its calls are, in this order:
`aeiInit(env, cls)`, `sdlInit(env, cls)`, `sdlMainReady()`, the array length, the
allocation, for each element in turn the four calls that copy it, and last
`frontMain(argc, argv)` with `argc` the length of the array and `argv` holding, entry by
entry, a non-null copy of the string JNI gives for the element of the same index; these
four are the only calls through function pointers. -/
theorem C4_sdlInit_order_and_args (w : World) (env cls : Ptr) (jargv : jobjectArray)
    (g : Globals) (h1 : g.aeiInit ≠ 0) (h2 : g.sdlInit ≠ 0) (h3 : g.sdlMainReady ≠ 0)
    (h4 : g.frontMain ≠ 0) (helems : ∀ e ∈ jargv.elems, elementCopies w e)
    (hmalloc : jargv.elems ≠ [] → w.malloc jargv.elems.length ≠ 0) :
    sdlInit w env cls jargv g =
      ⟨[Event.call g.aeiInit [Arg.ptr env, Arg.ptr cls],
          Event.call g.sdlInit [Arg.ptr env, Arg.ptr cls],
          Event.call g.sdlMainReady [],
          Event.GetArrayLength jargv.ref,
          Event.malloc jargv.elems.length]
        ++ argTrace w jargv.ref 0 jargv.elems
        ++ [Event.call g.frontMain [Arg.int jargv.elems.length,
              Arg.argv (w.malloc jargv.elems.length) (jargv.elems.map (argvEntry w))]],
        g, some ()⟩ ∧
    (sdlInit w env cls jargv g).trace.filterMap calledFunction =
      [g.aeiInit, g.sdlInit, g.sdlMainReady, g.frontMain] ∧
    (jargv.elems.map (argvEntry w)).length = jargv.elems.length ∧
    (∀ (i : Nat) (hi : i < jargv.elems.length),
      ∃ s : jstring, jargv.elems.get ⟨i, hi⟩ = some s ∧
        w.strdup (w.GetStringUTFChars s) ≠ 0 ∧
        (jargv.elems.map (argvEntry w))[i]? =
          some (some ⟨w.strdup (w.GetStringUTFChars s), cstr (w.GetStringUTFChars s).bytes⟩)) := by
  have hloop := sdlInit_loop_run w jargv (w.malloc jargv.elems.length) helems hmalloc
    jargv.elems.length 0 (List.replicate jargv.elems.length none) g (by simp) (by simp)
  have hrun : sdlInit w env cls jargv g =
      ⟨[Event.call g.aeiInit [Arg.ptr env, Arg.ptr cls],
          Event.call g.sdlInit [Arg.ptr env, Arg.ptr cls],
          Event.call g.sdlMainReady [],
          Event.GetArrayLength jargv.ref,
          Event.malloc jargv.elems.length]
        ++ argTrace w jargv.ref 0 jargv.elems
        ++ [Event.call g.frontMain [Arg.int jargv.elems.length,
              Arg.argv (w.malloc jargv.elems.length) (jargv.elems.map (argvEntry w))]],
        g, some ()⟩ := by
    simp only [sdlInit, run_bind, Exec.andThen, getGlobals, invoke, emit, malloc,
      Int.toNat_ofNat, hloop]
    simp [h1, h2, h3, h4]
  refine ⟨hrun, ?_, by simp, ?_⟩
  · rw [hrun]
    simp [List.filterMap_append, argTrace_no_call, calledFunction]
  · intro i hi
    have hcop := helems (jargv.elems.get ⟨i, hi⟩) (List.get_mem _ _ _)
    cases he : jargv.elems.get ⟨i, hi⟩ with
    | none =>
      rw [he] at hcop
      exact absurd hcop (by simp [elementCopies])
    | some s =>
      rw [he] at hcop
      obtain ⟨_, hc2⟩ := hcop
      refine ⟨s, rfl, hc2, ?_⟩
      have he2 : jargv.elems[i] = some s := he
      simp [List.getElem?_map, List.getElem?_eq_getElem hi, he2, argvEntry, strdupResult, hc2]

/-- C4 amended, at a two-element array of strings. -/
theorem C4_sdlInit_order_and_args_witness :
    (sdlInit worldAll 1 2 ⟨50, [some ⟨60⟩, some ⟨61⟩]⟩ loadedGlobals).trace.filterMap
        calledFunction = [11, 12, 13, 16] ∧
    (sdlInit worldAll 1 2 ⟨50, [some ⟨60⟩, some ⟨61⟩]⟩ loadedGlobals).result = some () :=
  ⟨(C4_sdlInit_order_and_args worldAll 1 2 ⟨50, [some ⟨60⟩, some ⟨61⟩]⟩ loadedGlobals
      (by decide) (by decide) (by decide) (by decide) (by decide) (by decide)).2.1,
    congrArg Run.result
      (C4_sdlInit_order_and_args worldAll 1 2 ⟨50, [some ⟨60⟩, some ⟨61⟩]⟩ loadedGlobals
        (by decide) (by decide) (by decide) (by decide) (by decide) (by decide)).1⟩

/-- C5: for every `pressed`, `emuGameShark` makes the single call
`coreDoCommand(M64CMD_CORE_STATE_SET, M64CORE_INPUT_GAMESHARK, &p)` where `p` is 1 when
`pressed` is `JNI_TRUE` (1) and 0 otherwise, so `p` is 0 or 1; and for every `jint`
`percent`, `emuSetSpeed` makes the single call
`coreDoCommand(M64CMD_CORE_STATE_SET, M64CORE_SPEED_FACTOR, &s)` with `s = percent`. Both
leave the static variables alone, and come back when `coreDoCommand` is resolved. -/
theorem C5_gameshark_and_speed (env cls : Ptr) (pressed : Nat) (percent : Int) (g : Globals)
    (hpercent : -2147483648 ≤ percent ∧ percent < 2147483648) :
    (∃ p : Int, (p = 0 ∨ p = 1) ∧ (p = 1 ↔ pressed = 1) ∧
      (emuGameShark env cls pressed g).trace =
        [Event.call g.coreDoCommand [Arg.cmd .M64CMD_CORE_STATE_SET,
          Arg.coreParam .M64CORE_INPUT_GAMESHARK, Arg.intRef p]]) ∧
    (emuGameShark env cls pressed g).globals = g ∧
    (emuSetSpeed env cls percent g).trace =
      [Event.call g.coreDoCommand [Arg.cmd .M64CMD_CORE_STATE_SET,
        Arg.coreParam .M64CORE_SPEED_FACTOR, Arg.intRef percent]] ∧
    (emuSetSpeed env cls percent g).globals = g ∧
    (g.coreDoCommand ≠ 0 →
      (emuGameShark env cls pressed g).result = some () ∧
      (emuSetSpeed env cls percent g).result = some ()) := by
  have hcast := toInt32_of_jint percent hpercent
  refine ⟨⟨if pressed = 1 then 1 else 0, ?_, ?_, ?_⟩, ?_, ?_, ?_, ?_⟩
  · by_cases hp : pressed = 1 <;> simp [hp]
  · by_cases hp : pressed = 1 <;> simp [hp]
  · simp [emuGameShark, run_bind, Exec.andThen, getGlobals, invoke, JNI_TRUE]
  · simp [emuGameShark, run_bind, Exec.andThen, getGlobals, invoke]
  · simp [emuSetSpeed, run_bind, Exec.andThen, getGlobals, invoke, hcast]
  · simp [emuSetSpeed, run_bind, Exec.andThen, getGlobals, invoke]
  · intro hres
    simp [emuSetSpeed, emuGameShark, run_bind, Exec.andThen, getGlobals, invoke, hres]

/-- C5 at a speed of 250 percent. -/
theorem C5_gameshark_and_speed_witness :
    (emuSetSpeed 1 2 250 loadedGlobals).trace =
      [Event.call 15 [Arg.cmd .M64CMD_CORE_STATE_SET, Arg.coreParam .M64CORE_SPEED_FACTOR,
        Arg.intRef 250]] :=
  (C5_gameshark_and_speed 1 2 1 250 loadedGlobals (by decide)).2.2.1

/-- C6: `loadLibraries` runs to its end exactly when the two `JNI_OnLoad` lookups resolve,
whatever the other lookups give; and whenever it has run to its end, each handle is what
`dlopen` answered for its path, each of the six function pointers is what `dlsym` answered
for its own symbol in its own handle, and the error about library functions is in the log
exactly when one of the six pointers is null (so a null pointer means: logged, and the
method still returns). The paths opened are the four fixed ones whatever the arguments. -/
theorem C6_loadLibraries_resolves (w : World) (env cls : Ptr) (g : Globals) :
    ((loadLibraries w env cls g).result = some () ↔
      (w.dlsym (w.dlopen pathAEI) "JNI_OnLoad" ≠ 0 ∧
        w.dlsym (w.dlopen pathSDL) "JNI_OnLoad" ≠ 0)) ∧
    ((loadLibraries w env cls g).result = some () →
      ((loadLibraries w env cls g).globals.handleAEI = w.dlopen pathAEI ∧
        (loadLibraries w env cls g).globals.handleSDL = w.dlopen pathSDL ∧
        (loadLibraries w env cls g).globals.handleCore = w.dlopen pathCore ∧
        (loadLibraries w env cls g).globals.handleFront = w.dlopen pathFront) ∧
      ((loadLibraries w env cls g).globals.aeiInit =
          w.dlsym (loadLibraries w env cls g).globals.handleAEI "SDL_Android_Init_Extras" ∧
        (loadLibraries w env cls g).globals.sdlInit =
          w.dlsym (loadLibraries w env cls g).globals.handleSDL "SDL_Android_Init" ∧
        (loadLibraries w env cls g).globals.sdlMainReady =
          w.dlsym (loadLibraries w env cls g).globals.handleSDL "SDL_SetMainReady" ∧
        (loadLibraries w env cls g).globals.sdlOnResize =
          w.dlsym (loadLibraries w env cls g).globals.handleSDL
            "Java_org_libsdl_app_SDLActivity_onNativeResize" ∧
        (loadLibraries w env cls g).globals.coreDoCommand =
          w.dlsym (loadLibraries w env cls g).globals.handleCore "CoreDoCommand" ∧
        (loadLibraries w env cls g).globals.frontMain =
          w.dlsym (loadLibraries w env cls g).globals.handleFront "SDL_main") ∧
      (Event.LOGE msgNoFunctions ∈ (loadLibraries w env cls g).trace ↔
        anyFunctionNull (loadLibraries w env cls g).globals)) ∧
    (∀ (w2 : World) (env2 cls2 : Ptr) (g2 : Globals),
      (loadLibraries w2 env2 cls2 g2).trace.filterMap openedPath =
        ["/data/data/paulscode.android.mupen64plusae/lib/libae-imports.so",
          "/data/data/paulscode.android.mupen64plusae/lib/libSDL2.so",
          "/data/data/paulscode.android.mupen64plusae/lib/libcore.so",
          "/data/data/paulscode.android.mupen64plusae/lib/libfront-end.so"]) := by
  have hiff : (loadLibraries w env cls g).result = some () ↔
      (w.dlsym (w.dlopen pathAEI) "JNI_OnLoad" ≠ 0 ∧
        w.dlsym (w.dlopen pathSDL) "JNI_OnLoad" ≠ 0) := by
    constructor
    · intro h
      have h0 : w.dlsym (w.dlopen pathAEI) "JNI_OnLoad" ≠ 0 := by
        intro h0
        rw [loadLibraries_run_null0 w env cls g h0] at h
        simp at h
      have h1 : w.dlsym (w.dlopen pathSDL) "JNI_OnLoad" ≠ 0 := by
        intro h1
        rw [loadLibraries_run_null1 w env cls g h0 h1] at h
        simp at h
      exact ⟨h0, h1⟩
    · intro h
      rw [loadLibraries_run_ok w env cls g h.1 h.2]
  refine ⟨hiff, ?_, ?_⟩
  · intro h
    obtain ⟨h0, h1⟩ := hiff.mp h
    refine ⟨?_, ?_, ?_⟩
    · simp [loadLibraries_run_ok w env cls g h0 h1, afterResolve, afterOpen]
    · simp [loadLibraries_run_ok w env cls g h0 h1, afterResolve, afterOpen]
    · rw [loadLibraries_run_ok w env cls g h0 h1]
      by_cases hh : anyHandleNull (afterOpen w g) <;>
      by_cases hf : anyFunctionNull (afterResolve w g) <;>
        simp [loadTraceOpen, loadTraceResolve, hh, hf, msgNoFunctions, msgNoLibraries]
  · intro w2 env2 cls2 g2
    by_cases k0 : w2.dlsym (w2.dlopen pathAEI) "JNI_OnLoad" = 0
    · rw [loadLibraries_run_null0 w2 env2 cls2 g2 k0]
      by_cases hh : anyHandleNull (afterOpen w2 g2) <;>
        simp [loadTraceOpen, openedPath, hh, pathAEI, pathSDL, pathCore, pathFront]
    · by_cases k1 : w2.dlsym (w2.dlopen pathSDL) "JNI_OnLoad" = 0
      · rw [loadLibraries_run_null1 w2 env2 cls2 g2 k0 k1]
        by_cases hh : anyHandleNull (afterOpen w2 g2) <;>
          simp [loadTraceOpen, openedPath, hh, pathAEI, pathSDL, pathCore, pathFront]
      · rw [loadLibraries_run_ok w2 env2 cls2 g2 k0 k1]
        by_cases hh : anyHandleNull (afterOpen w2 g2) <;>
        by_cases hf : anyFunctionNull (afterResolve w2 g2) <;>
          simp [loadTraceOpen, loadTraceResolve, openedPath, hh, hf, pathAEI, pathSDL, pathCore,
            pathFront]

/-- C6 at a world where `libcore.so` is missing: the run ends, `coreDoCommand` is null and
the error about library functions is logged. -/
theorem C6_loadLibraries_resolves_witness :
    (loadLibraries worldNoCore 1 2 (notLoaded 3 4)).result = some () ∧
    (loadLibraries worldNoCore 1 2 (notLoaded 3 4)).globals.coreDoCommand = 0 ∧
    (loadLibraries worldNoCore 1 2 (notLoaded 3 4)).globals.frontMain = 9 ∧
    Event.LOGE msgNoFunctions ∈ (loadLibraries worldNoCore 1 2 (notLoaded 3 4)).trace :=
  ⟨(C6_loadLibraries_resolves worldNoCore 1 2 (notLoaded 3 4)).1.mpr ⟨by decide, by decide⟩,
    by decide, by decide,
    ((C6_loadLibraries_resolves worldNoCore 1 2 (notLoaded 3 4)).2.1
      ((C6_loadLibraries_resolves worldNoCore 1 2 (notLoaded 3 4)).1.mpr
        ⟨by decide, by decide⟩)).2.2.mpr (by decide)⟩

/-- C7: with `coreDoCommand` resolved, for every file name `emuLoadFile` and `emuSaveFile`
make exactly three outside calls, in this order: `GetStringUTFChars(filename)`, the call
through `coreDoCommand` whose third argument is the character pointer just obtained, and
`ReleaseStringUTFChars(filename, chars)` for that same pointer; the command and the
parameter of the call are those of `emuLoadSlot` and `emuSaveSlot`, which pass `NULL` in
the third place. -/
theorem C7_file_commands (w : World) (env cls : Ptr) (filename : jstring) (g : Globals)
    (hres : g.coreDoCommand ≠ 0) :
    emuLoadFile w env cls filename g =
      ⟨[Event.GetStringUTFChars filename,
        Event.call g.coreDoCommand [Arg.cmd .M64CMD_STATE_LOAD, Arg.int 0,
          Arg.chars (w.GetStringUTFChars filename)],
        Event.ReleaseStringUTFChars filename (w.GetStringUTFChars filename)], g, some ()⟩ ∧
    emuSaveFile w env cls filename g =
      ⟨[Event.GetStringUTFChars filename,
        Event.call g.coreDoCommand [Arg.cmd .M64CMD_STATE_SAVE, Arg.int 1,
          Arg.chars (w.GetStringUTFChars filename)],
        Event.ReleaseStringUTFChars filename (w.GetStringUTFChars filename)], g, some ()⟩ ∧
    (emuLoadSlot env cls g).trace =
      [Event.call g.coreDoCommand [Arg.cmd .M64CMD_STATE_LOAD, Arg.int 0, Arg.ptr 0]] ∧
    (emuSaveSlot env cls g).trace =
      [Event.call g.coreDoCommand [Arg.cmd .M64CMD_STATE_SAVE, Arg.int 1, Arg.ptr 0]] := by
  simp [emuLoadFile, emuSaveFile, emuLoadSlot, emuSaveSlot, run_bind, Exec.andThen, getGlobals,
    invoke, emit, GetStringUTFChars, hres]

/-- C7 at a concrete file name reference. -/
theorem C7_file_commands_witness :
    (emuLoadFile worldAll 1 2 ⟨30⟩ loadedGlobals).trace =
      [Event.GetStringUTFChars ⟨30⟩,
        Event.call 15 [Arg.cmd .M64CMD_STATE_LOAD, Arg.int 0, Arg.chars ⟨130, [97, 0]⟩],
        Event.ReleaseStringUTFChars ⟨30⟩ ⟨130, [97, 0]⟩] :=
  congrArg Run.trace (C7_file_commands worldAll 1 2 ⟨30⟩ loadedGlobals (by decide)).1

/-- C8: with `coreDoCommand` resolved, `emuGetState` makes the one query call and returns,
for the value `v` the query leaves in `state` (the initial 0 when the core stores nothing):
1 if `v` is `M64EMU_STOPPED`, else 2 if it is `M64EMU_RUNNING`, else 3 if it is
`M64EMU_PAUSED`, else 0, so always one of 0, 1, 2, 3; when the three enumerators differ
from each other the three states give 1, 2 and 3, and when they are also not 0 a query that
stores nothing gives 0. -/
theorem C8_emuGetState_codes (k : m64p_emu_state) (w : World) (env cls : Ptr) (g : Globals)
    (hres : g.coreDoCommand ≠ 0) :
    (emuGetState k w env cls g).trace =
      [Event.call g.coreDoCommand [Arg.cmd .M64CMD_CORE_STATE_QUERY,
        Arg.coreParam .M64CORE_EMU_STATE, Arg.intRef 0]] ∧
    (emuGetState k w env cls g).result =
      some (if w.emuStateQuery.getD 0 = k.M64EMU_STOPPED then 1
        else if w.emuStateQuery.getD 0 = k.M64EMU_RUNNING then 2
        else if w.emuStateQuery.getD 0 = k.M64EMU_PAUSED then 3 else 0) ∧
    (∃ r : Int, (r = 0 ∨ r = 1 ∨ r = 2 ∨ r = 3) ∧ (emuGetState k w env cls g).result = some r) ∧
    (k.M64EMU_STOPPED ≠ k.M64EMU_RUNNING → k.M64EMU_STOPPED ≠ k.M64EMU_PAUSED →
      k.M64EMU_RUNNING ≠ k.M64EMU_PAUSED →
      (w.emuStateQuery = some k.M64EMU_STOPPED → (emuGetState k w env cls g).result = some 1) ∧
      (w.emuStateQuery = some k.M64EMU_RUNNING → (emuGetState k w env cls g).result = some 2) ∧
      (w.emuStateQuery = some k.M64EMU_PAUSED → (emuGetState k w env cls g).result = some 3) ∧
      (∀ v, w.emuStateQuery = some v → v ≠ k.M64EMU_STOPPED → v ≠ k.M64EMU_RUNNING →
        v ≠ k.M64EMU_PAUSED → (emuGetState k w env cls g).result = some 0) ∧
      (k.M64EMU_STOPPED ≠ 0 → k.M64EMU_RUNNING ≠ 0 → k.M64EMU_PAUSED ≠ 0 →
        w.emuStateQuery = none → (emuGetState k w env cls g).result = some 0)) := by
  rw [emuGetState_run k w env cls g hres]
  refine ⟨rfl, rfl, ?_, ?_⟩
  · split_ifs <;> simp
  · intro d1 d2 d3
    refine ⟨?_, ?_, ?_, ?_, ?_⟩
    · intro hq
      simp [hq]
    · intro hq
      simp [hq, Ne.symm d1]
    · intro hq
      simp [hq, Ne.symm d2, Ne.symm d3]
    · intro v hq n1 n2 n3
      simp [hq, n1, n2, n3]
    · intro z1 z2 z3 hq
      simp [hq, Ne.symm z1, Ne.symm z2, Ne.symm z3]

/-- C8 at the core's enumerator values, with a core that reports "running". -/
theorem C8_emuGetState_codes_witness :
    (emuGetState coreEmuStates worldAll 1 2 loadedGlobals).result = some 2 :=
  (C8_emuGetState_codes coreEmuStates worldAll 1 2 loadedGlobals (by decide)).2.2.2
    (by decide) (by decide) (by decide) |>.2.1 rfl

/-- C9 as stated fails: it is not true that for every buffer and every `loadlength` up to
its length `swap_rom` returns with the bytes from index `loadlength` on unchanged. With
`loadlength` 3 on the four bytes 37 80 40 12 the loop swaps bytes 2 and 3, so the byte at
index 3 changes; on the three bytes 37 80 40 the same round reaches index 3, outside the
buffer; and on the empty buffer with `loadlength` 0 the test of `localrom[0]` is already
outside. -/
theorem C9_swap_rom_counterexample :
    ¬ (∀ (rom : List Nat) (loadlength : Int), loadlength ≤ rom.length →
        ∃ out, swap_rom rom loadlength = some out ∧
          ∀ i : Nat, loadlength ≤ (i : Int) → out[i]? = rom[i]?) ∧
    swap_rom [0x37, 0x80, 0x40, 0x12] 3 = some [0x80, 0x37, 0x12, 0x40] ∧
    swap_rom [0x37, 0x80, 0x40] 3 = none ∧
    swap_rom [] 0 = none := by
  refine ⟨?_, by decide, by decide, by decide⟩
  intro h
  obtain ⟨out, hout, hrest⟩ := h [0x37, 0x80, 0x40, 0x12] 3 (by decide)
  have hout2 : swap_rom [0x37, 0x80, 0x40, 0x12] 3 = some [0x80, 0x37, 0x12, 0x40] := by decide
  rw [hout2] at hout
  have h3 := hrest 3 (by decide)
  rw [← Option.some.inj hout] at h3
  revert h3
  decide

/-- C9, amended: for every non-empty buffer and every `int` `loadlength` up to its length
that is even when the first byte is 0x37 and a multiple of 4 when it is 0x40, `swap_rom`
returns a buffer of the same size with: `out[i] = rom[i xor 1]` for `i < loadlength` in the
first case, `out[i] = rom[i xor 3]` for `i < loadlength` in the second, the buffer unchanged
when the first byte is neither; the bytes from index `loadlength` on unchanged; no access
beyond the first `loadlength` bytes apart from the test of `localrom[0]` (the run also
succeeds on the buffer cut to `max 1 loadlength` bytes); and an image that starts
37 80 40 12 or 40 12 37 80, with `loadlength` at least 4, comes out starting 80 37 12 40
and is left unchanged by a second `swap_rom`. -/
theorem C9_swap_rom_aligned (rom : List Nat) (loadlength : Int) (hne : rom ≠ [])
    (hlen : loadlength ≤ rom.length) (hint : loadlength ≤ INT_MAX)
    (h37 : rom[0]? = some 0x37 → 2 ∣ loadlength)
    (h40 : rom[0]? = some 0x40 → 4 ∣ loadlength) :
    ∃ out, swap_rom rom loadlength = some out ∧ out.length = rom.length ∧
      (rom[0]? = some 0x37 → ∀ i : Nat, (i : Int) < loadlength → out[i]? = rom[i ^^^ 1]?) ∧
      (rom[0]? = some 0x40 → ∀ i : Nat, (i : Int) < loadlength → out[i]? = rom[i ^^^ 3]?) ∧
      (rom[0]? ≠ some 0x37 → rom[0]? ≠ some 0x40 → out = rom) ∧
      (∀ i : Nat, loadlength ≤ (i : Int) → out[i]? = rom[i]?) ∧
      (swap_rom (rom.take (max 1 loadlength.toNat)) loadlength).isSome ∧
      ((rom.take 4 = [0x37, 0x80, 0x40, 0x12] ∨ rom.take 4 = [0x40, 0x12, 0x37, 0x80]) →
        4 ≤ loadlength →
        out.take 4 = [0x80, 0x37, 0x12, 0x40] ∧ swap_rom out loadlength = some out) := by
  obtain ⟨out, hout, holen, ho37, ho40, hoid, hotail⟩ :=
    swap_rom_run rom loadlength hne hlen hint h37 h40
  refine ⟨out, hout, holen, ho37, ho40, hoid, hotail, ?_, ?_⟩
  · have hpos : 0 < rom.length := List.length_pos.mpr hne
    have h0 : (rom.take (max 1 loadlength.toNat))[0]? = rom[0]? := by
      rw [List.getElem?_take]
      simp
    obtain ⟨out2, hout2, _⟩ := swap_rom_run (rom.take (max 1 loadlength.toNat)) loadlength
      (List.ne_nil_of_length_pos (by rw [List.length_take]; omega))
      (by rw [List.length_take]; omega)
      hint (by rw [h0]; exact h37) (by rw [h0]; exact h40)
    simp [hout2]
  · intro hhead h4
    have hk : ∀ k, k < 4 → (rom.take 4)[k]? = rom[k]? := by
      intro k hk
      rw [List.getElem?_take]
      simp [hk]
    have hfinal : out.take 4 = [0x80, 0x37, 0x12, 0x40] := by
      have e0 : out[0]? = some 0x80 ∧ out[1]? = some 0x37 ∧ out[2]? = some 0x12 ∧
          out[3]? = some 0x40 := by
        rcases hhead with hh | hh
        · have r0 := hk 0 (by omega)
          have r1 := hk 1 (by omega)
          have r2 := hk 2 (by omega)
          have r3 := hk 3 (by omega)
          rw [hh] at r0 r1 r2 r3
          simp at r0 r1 r2 r3
          have hs := ho37 r0.symm
          refine ⟨?_, ?_, ?_, ?_⟩
          · rw [hs 0 (by omega)]; exact r1.symm
          · rw [hs 1 (by omega)]; exact r0.symm
          · rw [hs 2 (by omega)]; exact r3.symm
          · rw [hs 3 (by omega)]; exact r2.symm
        · have r0 := hk 0 (by omega)
          have r1 := hk 1 (by omega)
          have r2 := hk 2 (by omega)
          have r3 := hk 3 (by omega)
          rw [hh] at r0 r1 r2 r3
          simp at r0 r1 r2 r3
          have hs := ho40 r0.symm
          refine ⟨?_, ?_, ?_, ?_⟩
          · rw [hs 0 (by omega)]; exact r3.symm
          · rw [hs 1 (by omega)]; exact r2.symm
          · rw [hs 2 (by omega)]; exact r1.symm
          · rw [hs 3 (by omega)]; exact r0.symm
      apply List.ext_getElem?
      intro k
      rw [List.getElem?_take]
      by_cases c : k < 4
      · have : k = 0 ∨ k = 1 ∨ k = 2 ∨ k = 3 := by omega
        rcases this with rfl | rfl | rfl | rfl <;> simp [e0]
      · have : 4 ≤ k := by omega
        simp [c, this]
    have hfirst : out[0]? = some 0x80 := by
      have := congrArg (fun l => l[0]?) hfinal
      simpa [List.getElem?_take] using this
    refine ⟨hfinal, ?_⟩
    cases out with
    | nil => simp at hfirst
    | cons a t =>
      simp at hfirst
      simp [swap_rom, readByte, hfirst]

/-- C9 amended, on a .v64 image of six bytes with two more bytes behind it. -/
theorem C9_swap_rom_aligned_witness :
    ∃ out, swap_rom [0x37, 0x80, 0x40, 0x12, 1, 2, 3, 4] 6 = some out ∧
      out.take 4 = [0x80, 0x37, 0x12, 0x40] ∧ swap_rom out 6 = some out := by
  obtain ⟨out, h1, _, _, _, _, _, _, h8⟩ :=
    C9_swap_rom_aligned [0x37, 0x80, 0x40, 0x12, 1, 2, 3, 4] 6 (by decide) (by decide)
      (by decide) (fun _ => by decide) (fun h => by simp at h)
  exact ⟨out, h1, (h8 (Or.inl rfl) (by decide)).1, (h8 (Or.inl rfl) (by decide)).2⟩

/-- C10: for every buffer that holds a NUL (and is shorter than 2^32 bytes, the range of the
`unsigned int` counter), `trim` returns, with the pointer it was given (offset 0) and a
buffer of the same size whose string is the input string without its leading and its
trailing whitespace: the input string is `lead ++ result ++ trail` with `lead` and `trail`
all whitespace and `result` neither starting nor ending with whitespace. An input string
that is all whitespace (the empty one included) gives the empty string, and trimming the
result again gives the same string. No access falls outside the buffer; in particular the
backward scan never steps below the start. -/
theorem C10_trim_strips_whitespace (buf : List Nat) (hnul : 0 ∈ buf)
    (hsize : buf.length < 4294967296) :
    ∃ out, trim buf = some (0, out) ∧ out.length = buf.length ∧
      cstr out = trim_spec (cstr buf) ∧
      (∃ lead trail, cstr buf = lead ++ cstr out ++ trail ∧
        (∀ x ∈ lead, isspace x = true) ∧ (∀ x ∈ trail, isspace x = true) ∧
        (∀ x, (cstr out).head? = some x → isspace x = false) ∧
        (∀ x, (cstr out).getLast? = some x → isspace x = false)) ∧
      ((∀ x ∈ cstr buf, isspace x = true) → cstr out = []) ∧
      (∃ out2, trim out = some (0, out2) ∧ cstr out2 = cstr out) := by
  obtain ⟨ws, core, tws, rest, hbuf, hws, htws, hcore0, hhead, hlast, hempty, hcstr, hspec⟩ :=
    buffer_decomp buf hnul
  obtain ⟨rest2, hrun, hlen⟩ :=
    trim_run ws core tws rest hws htws hcore0 hhead hlast hempty (by rw [← hbuf]; exact hsize)
  have hc : cstr (core ++ 0 :: rest2) = core := cstr_append core rest2 hcore0
  obtain ⟨rest3, hrun3, _⟩ :=
    trim_run [] core [] rest2 (by simp) (by simp) hcore0 hhead hlast (fun _ => rfl)
      (by
        have e : ([] : List Nat) ++ (core ++ []) ++ 0 :: rest2 = core ++ 0 :: rest2 := by simp
        rw [e, hlen, ← hbuf]
        exact hsize)
  refine ⟨core ++ 0 :: rest2, ?_, ?_, ?_, ?_, ?_, ?_⟩
  · rw [hbuf]
    exact hrun
  · rw [hlen, ← hbuf]
  · rw [hc, hspec]
  · refine ⟨ws, tws, ?_, hws, htws, ?_, ?_⟩
    · rw [hc, hcstr]
      simp
    · rw [hc]
      exact hhead
    · rw [hc]
      exact hlast
  · intro hall
    rw [hc]
    cases hcore : core with
    | nil => rfl
    | cons x t =>
      have h1 : isspace x = false := hhead x (by rw [hcore]; rfl)
      have h2 : isspace x = true := hall x (by rw [hcstr, hcore]; simp)
      rw [h1] at h2
      simp at h2
  · refine ⟨core ++ 0 :: rest3, ?_, ?_⟩
    · have e : ([] : List Nat) ++ (core ++ []) ++ 0 :: rest2 = core ++ 0 :: rest2 := by simp
      rw [← e]
      exact hrun3
    · rw [hc]
      exact cstr_append core rest3 hcore0

/-- C10 on the buffer that holds `"  a b "`. -/
theorem C10_trim_strips_whitespace_witness :
    ∃ out, trim [32, 32, 97, 32, 98, 32, 0] = some (0, out) ∧
      cstr out = trim_spec (cstr [32, 32, 97, 32, 98, 32, 0]) ∧ cstr out = [97, 32, 98] := by
  obtain ⟨out, h1, _, h3, _⟩ :=
    C10_trim_strips_whitespace [32, 32, 97, 32, 98, 32, 0] (by decide) (by decide)
  exact ⟨out, h1, h3, by rw [h3]; decide⟩

end AeBridge
